import Mathlib

/-!
Verification development for the tyco-rust configuration-language parser.

The Rust sources (`parser.rs`, `context.rs`, `value.rs`, `utils.rs`,
`error.rs`) are shallowly embedded below.  Strings are modelled as Lean
`String` / `List Char`; Rust byte-index slicing of UTF-8 strings is modelled
explicitly (`takeBytes` / `dropBytes`), with an out-of-boundary slice made
observable as a `panic` outcome, mirroring the runtime panic of `&s[..i]`
at a non-boundary.  Machine integers are modelled as `Int` with explicit
64-bit range checks.  IEEE f64 values are kept abstract as their source
token text (no claim depends on float arithmetic or formatting); the
accept/reject grammar of Rust's `f64::from_str` is modelled.  Recursive
tree walks that the Rust code performs on the (potentially schema-default
expanded) document use an explicit fuel parameter; fuel exhaustion is the
distinct outcome `RErr.fuelOut` (a model artefact - the Rust code recurses
unboundedly there, overflowing the stack on pathological self-defaulting
schemas).  Error spans (`SourceSpan`) are reporting metadata only and are
omitted; error kinds and the message texts that matter are kept.
-/

namespace Tyco

/-- The double-quote character. -/
def dq : Char := Char.ofNat 34

/-- The single-quote character. -/
def sq : Char := Char.ofNat 39

/-- The backslash character. -/
def bslash : Char := Char.ofNat 92

/-- The NUL character, Rust's `'\0'` placeholder for "no quote char". -/
def nul : Char := Char.ofNat 0

/-- The opening curly brace. -/
def lbrace : Char := Char.ofNat 123

/-- The closing curly brace. -/
def rbrace : Char := Char.ofNat 125

/-- Rust `char::is_whitespace`: the Unicode White_Space property. -/
def rustIsWhitespace (c : Char) : Bool :=
  let n := c.toNat
  (9 ≤ n && n ≤ 13) || n = 32 || n = 133 || n = 160 || n = 5760 ||
  (8192 ≤ n && n ≤ 8202) || n = 8232 || n = 8233 || n = 8239 || n = 8287 || n = 12288

/-- Drop leading Unicode whitespace from a char list (Rust `str::trim_start`). -/
def trimStartChars : List Char → List Char
  | [] => []
  | c :: cs => if rustIsWhitespace c then trimStartChars cs else c :: cs

/-- Drop trailing Unicode whitespace (Rust `str::trim_end`). -/
def trimEndChars (cs : List Char) : List Char :=
  (trimStartChars cs.reverse).reverse

/-- Rust `str::trim` on both ends. -/
def trimChars (cs : List Char) : List Char :=
  trimEndChars (trimStartChars cs)

/-- Rust `str::trim` lifted to `String`. -/
def rustTrim (s : String) : String := String.mk (trimChars s.data)

/-- Rust `str::trim_end` lifted to `String`. -/
def rustTrimEnd (s : String) : String := String.mk (trimEndChars s.data)

/-- ASCII `A-Z`, the regex class `[A-Z]`. -/
def isUpperAZ (c : Char) : Bool := 65 ≤ c.toNat && c.toNat ≤ 90

/-- ASCII `a-z`, the regex class `[a-z]`. -/
def isLowerAZ (c : Char) : Bool := 97 ≤ c.toNat && c.toNat ≤ 122

/-- ASCII `0-9`. -/
def isDigit09 (c : Char) : Bool := 48 ≤ c.toNat && c.toNat ≤ 57

/-- The regex class `[A-Za-z]`. -/
def isAlphaAZ (c : Char) : Bool := isUpperAZ c || isLowerAZ c

/-- The regex class `[A-Za-z0-9_]`. -/
def isIdentChar (c : Char) : Bool := isAlphaAZ c || isDigit09 c || c = '_'

/-- Rust `char::is_ascii_alphabetic`. -/
def isAsciiAlphabetic (c : Char) : Bool := isAlphaAZ c

/-- Rust `char::is_ascii_alphanumeric`. -/
def isAsciiAlphanumeric (c : Char) : Bool := isAlphaAZ c || isDigit09 c

/-- UTF-8 encoded length in bytes of one scalar value. -/
def rustUtf8Size (c : Char) : Nat :=
  if c.toNat ≤ 0x7F then 1
  else if c.toNat ≤ 0x7FF then 2
  else if c.toNat ≤ 0xFFFF then 3
  else 4

/-- Rust byte slice `&s[..n]` of a UTF-8 string, as the chars wholly inside
the first `n` bytes; `none` models the runtime panic when `n` is not a
character boundary (or exceeds the length). -/
def takeBytes : List Char → Nat → Option (List Char)
  | _, 0 => some []
  | [], _ + 1 => none
  | c :: cs, n + 1 =>
    if rustUtf8Size c ≤ n + 1 then
      (takeBytes cs (n + 1 - rustUtf8Size c)).map (c :: ·)
    else none

/-- Rust byte slice `&s[n..]`; `none` models the boundary panic. -/
def dropBytes : List Char → Nat → Option (List Char)
  | cs, 0 => some cs
  | [], _ + 1 => none
  | c :: cs, n + 1 =>
    if rustUtf8Size c ≤ n + 1 then dropBytes cs (n + 1 - rustUtf8Size c)
    else none

/-- Loop of `utils.rs::strip_inline_comment`, iterating over the enumerated
chars of `line`.  `idx` is the enumeration (character) index; the Rust code
byte-slices `line[..idx]` with it inside the quote-closing look-back and in
the `#` branch, which panics when `idx` is not a byte boundary - modelled by
the `none` result. -/
def sicLoop (line : List Char) : List Char → Nat → Bool → Char → Option (List Char)
  | [], _, _, _ => some (trimEndChars line)
  | c :: rest, idx, inQ, qc =>
    if !inQ && (c = dq || c = sq) then
      sicLoop line rest (idx + 1) true c
    else if inQ && c = qc then
      match takeBytes line idx with
      | none => none
      | some pre =>
        if pre.getLastD nul ≠ bslash then
          sicLoop line rest (idx + 1) false nul
        else
          sicLoop line rest (idx + 1) inQ qc
    else if c = '#' && !inQ then
      (takeBytes line idx).map trimEndChars
    else
      sicLoop line rest (idx + 1) inQ qc

/-- `utils.rs::strip_inline_comment`; `none` models the byte-boundary panic
on lines with multi-byte characters before a quote or `#`. -/
def stripInlineComment (s : String) : Option String :=
  (sicLoop s.data s.data 0 false nul).map String.mk

/-- Whether `pat` occurs as a contiguous sublist starting at some position of
`cs` (the existence content of Rust `str::find`). -/
def hasSubstr (cs pat : List Char) : Bool :=
  match cs with
  | [] => pat.isEmpty
  | _ :: rest => pat.isPrefixOf cs || hasSubstr rest pat

/-- The suffix of `cs` after the end of the first occurrence of `pat`
(`none` when `pat` does not occur).  Mirrors `line[start + delim.len()..]`
after a successful `find`. -/
def afterFirstSubstr (cs pat : List Char) : Option (List Char) :=
  match cs with
  | [] => if pat.isEmpty then some [] else none
  | _ :: rest =>
    if pat.isPrefixOf cs then some (cs.drop pat.length)
    else afterFirstSubstr rest pat

/-- `utils.rs::has_unclosed_delimiter`: a first occurrence of `delimiter`
exists and no second occurrence follows it. -/
def hasUnclosedDelimiter (line delimiter : String) : Bool :=
  match afterFirstSubstr line.data delimiter.data with
  | some rest => !hasSubstr rest delimiter.data
  | none => false

/-- `utils.rs::is_escaped`: odd number of trailing backslashes in the
accumulated `current` buffer. -/
def isEscaped (current : List Char) : Bool :=
  (current.reverse.takeWhile (· = bslash)).length % 2 = 1

/-- Rust `i32::saturating_sub(1)`: saturates at `i32::MIN` (not at zero, so
unbalanced closers drive the depth negative). -/
def satSubOne (d : Int) : Int :=
  if d ≤ -(2 ^ 31) then d else d - 1

/-- Loop of `utils.rs::split_top_level`: depth- and quote-aware splitting on
`delimiter`; `current` is accumulated in reverse, `parts` in order. -/
def stlLoop (delimiter : Char) :
    List Char → List Char → Int → Bool → Char → List String → List String
  | [], current, _, _, _, parts =>
    let final := trimChars current.reverse
    if final.isEmpty then parts else parts ++ [String.mk final]
  | ch :: rest, current, depth, inQ, qc, parts =>
    if inQ then
      if ch = qc && !isEscaped current.reverse then
        stlLoop delimiter rest (ch :: current) depth false nul parts
      else
        stlLoop delimiter rest (ch :: current) depth inQ qc parts
    else
      if ch = dq || ch = sq then
        stlLoop delimiter rest (ch :: current) depth true ch parts
      else if ch = '[' || ch = lbrace || ch = '(' then
        stlLoop delimiter rest (ch :: current) (depth + 1) inQ qc parts
      else if ch = ']' || ch = rbrace || ch = ')' then
        stlLoop delimiter rest (ch :: current) (satSubOne depth) inQ qc parts
      else if ch = delimiter && depth = 0 then
        stlLoop delimiter rest [] depth inQ qc (parts ++ [String.mk (trimChars current.reverse)])
      else
        stlLoop delimiter rest (ch :: current) depth inQ qc parts

/-- `utils.rs::split_top_level`. -/
def splitTopLevel (input : String) (delimiter : Char) : List String :=
  stlLoop delimiter input.data [] 0 false nul []

/-- Outcomes of the embedded Rust code: the four `TycoError` kinds
(`error.rs`, spans omitted), plus `panic` for a Rust runtime panic and
`fuelOut` for exhaustion of the model's fuel (a model artefact standing for
unbounded recursion in the source). -/
inductive RErr where
  | io
  | parse (message : String)
  | unknownStruct (name : String)
  | reference (message : String)
  | panic
  | fuelOut
deriving DecidableEq

/-- Is this outcome the `TycoError::Parse` kind? -/
def RErr.isParse : RErr → Bool
  | .parse _ => true
  | _ => false

/-- `i64` bounds. -/
def i64Max : Int := 2 ^ 63 - 1

/-- Lower `i64` bound. -/
def i64Min : Int := -(2 ^ 63)

/-- Digit value of `c` in base `radix` (16 accepts `a-f`/`A-F`). -/
def digitVal (radix : Nat) (c : Char) : Option Nat :=
  let n := c.toNat
  let v :=
    if 48 ≤ n && n ≤ 57 then some (n - 48)
    else if 97 ≤ n && n ≤ 122 then some (n - 97 + 10)
    else if 65 ≤ n && n ≤ 90 then some (n - 65 + 10)
    else none
  match v with
  | some d => if d < radix then some d else none
  | none => none

/-- Accumulate decimal/radix digits as a `Nat`; `none` on a non-digit or an
empty digit string. -/
def digitsToNat (radix : Nat) : List Char → Option Nat
  | [] => none
  | cs => cs.foldl (fun acc c =>
      match acc, digitVal radix c with
      | some a, some d => some (a * radix + d)
      | _, _ => none) (some 0)

/-- Rust `i64::from_str_radix` / `str::parse::<i64>`: optional `+`/`-` sign,
one or more digits, result within `i64` range. -/
def fromStrRadix (radix : Nat) (cs : List Char) : Option Int :=
  match cs with
  | '+' :: rest => (digitsToNat radix rest).bind fun v =>
      if (v : Int) ≤ i64Max then some (v : Int) else none
  | '-' :: rest => (digitsToNat radix rest).bind fun v =>
      if (v : Int) ≤ 2 ^ 63 then some (-(v : Int)) else none
  | _ => (digitsToNat radix cs).bind fun v =>
      if (v : Int) ≤ i64Max then some (v : Int) else none

/-- Rust release-mode `-value` on `i64`: wraps at `i64::MIN`. -/
def wrapNegI64 (v : Int) : Int :=
  if v = i64Min then i64Min else -v

/-- `utils.rs::parse_integer`: optional leading `-`, then a decimal literal
or a `0x`/`0o`/`0b` prefixed literal in base 16/8/2. -/
def parseInteger (token : String) : Except RErr Int :=
  let trimmed := (rustTrim token).data
  let negative := trimmed.head? = some '-'
  let body := if negative then trimmed.drop 1 else trimmed
  let value :=
    match body with
    | '0' :: 'x' :: rest => fromStrRadix 16 rest
    | '0' :: 'X' :: rest => fromStrRadix 16 rest
    | '0' :: 'o' :: rest => fromStrRadix 8 rest
    | '0' :: 'O' :: rest => fromStrRadix 8 rest
    | '0' :: 'b' :: rest => fromStrRadix 2 rest
    | '0' :: 'B' :: rest => fromStrRadix 2 rest
    | _ => fromStrRadix 10 body
  match value with
  | none => .error (.parse ("Failed to parse integer " ++ token))
  | some v => .ok (if negative then wrapNegI64 v else v)

/-- Abstract `f64`: the numeric value is kept as the accepted source token.
No claim depends on float arithmetic or formatting, so only the
accept/reject grammar of `f64::from_str` is modelled. -/
structure F64 where
  raw : String
deriving DecidableEq

/-- ASCII-lowercase a char (Rust `eq_ignore_ascii_case` support). -/
def asciiLower (c : Char) : Char :=
  if 65 ≤ c.toNat && c.toNat ≤ 90 then Char.ofNat (c.toNat + 32) else c

/-- Rust `str::eq_ignore_ascii_case`. -/
def eqIgnoreAsciiCase (a b : String) : Bool :=
  a.data.map asciiLower = b.data.map asciiLower

/-- Acceptance grammar of Rust `f64::from_str`: optional sign, then
`inf`/`infinity`/`nan` (ASCII case-insensitive) or a decimal number with at
least one mantissa digit and an optional well-formed exponent. -/
def f64Accepts (s : String) : Bool :=
  let cs := s.data
  let body := match cs with
    | '+' :: rest => rest
    | '-' :: rest => rest
    | _ => cs
  let lower := body.map asciiLower
  if lower = "inf".data || lower = "infinity".data || lower = "nan".data then true
  else
    let intPart := body.takeWhile isDigit09
    let rest1 := body.drop intPart.length
    let (fracPart, rest2) :=
      match rest1 with
      | '.' :: r =>
        (r.takeWhile isDigit09, (r.takeWhile isDigit09).length + 1 |> rest1.drop)
      | _ => ([], rest1)
    if intPart.isEmpty && fracPart.isEmpty then false
    else
      match rest2 with
      | [] => true
      | e :: r =>
        if e = 'e' || e = 'E' then
          let r2 := match r with
            | '+' :: t => t
            | '-' :: t => t
            | _ => r
          !r2.isEmpty && r2.all isDigit09 && r2.takeWhile isDigit09 = r2
        else false

/-- Rust `str::parse::<f64>` in the abstract float model. -/
def rustParseF64 (s : String) : Option F64 :=
  if f64Accepts s then some ⟨s⟩ else none

/-- `utils.rs::normalize_time`: pad or truncate the fractional-second
component after the first `.` to exactly six digits; everything after the
leading digit run of the fraction is dropped. -/
def normalizeTime (value : String) : String :=
  let cs := value.data
  let head := cs.takeWhile (· ≠ '.')
  if head.length = cs.length then value
  else
    let tail := cs.drop (head.length + 1)
    let frac := tail.takeWhile isDigit09
    let frac :=
      if frac.length < 6 then frac ++ List.replicate (6 - frac.length) '0'
      else frac.take 6
    String.mk (head ++ '.' :: frac)

/-- `utils.rs::normalize_datetime`: every space becomes `T`, a trailing `Z`
becomes `+00:00`, and the fractional-second run before the timezone suffix
is normalized like a time. -/
def normalizeDatetime (value : String) : String :=
  let r := value.data.map (fun c => if c = ' ' then 'T' else c)
  let r := if r.getLastD nul = 'Z' then r.dropLast ++ ('+' :: '0' :: '0' :: ':' :: '0' :: '0' :: []) else r
  let pre := r.takeWhile (· ≠ '.')
  if pre.length = r.length then String.mk r
  else
    let fromDot := r.drop pre.length
    let mid := fromDot.takeWhile (fun c => c ≠ '+' && c ≠ '-')
    let tzPart := fromDot.drop mid.length
    String.mk (pre ++ (normalizeTime (String.mk mid)).data ++ tzPart)

/-- Hex value of exactly the given chars (Rust `u32::from_str_radix(_, 16)`
inside the unicode-escape handler). -/
def hexValue (cs : List Char) : Except RErr Nat :=
  match digitsToNat 16 cs with
  | some v => .ok v
  | none => .error (.parse "Invalid unicode escape")

/-- Rust `char::from_u32` validity: not a surrogate, at most `0x10FFFF`. -/
def charFromU32 (v : Nat) : Except RErr Char :=
  if v < 0xD800 || (0xDFFF < v && v ≤ 0x10FFFF) then .ok (Char.ofNat v)
  else .error (.parse "Invalid unicode codepoint")

/-- Loop of `utils.rs::unescape_basic_string`. -/
def unescChars : List Char → Except RErr (List Char)
  | [] => .ok []
  | c :: rest =>
    if c ≠ bslash then (unescChars rest).map (c :: ·)
    else
      match rest with
      | [] => .ok [bslash]
      | e :: rest2 =>
        if e = 'n' then (unescChars rest2).map (Char.ofNat 10 :: ·)
        else if e = 't' then (unescChars rest2).map (Char.ofNat 9 :: ·)
        else if e = 'r' then (unescChars rest2).map (Char.ofNat 13 :: ·)
        else if e = 'b' then (unescChars rest2).map (Char.ofNat 8 :: ·)
        else if e = 'f' then (unescChars rest2).map (Char.ofNat 12 :: ·)
        else if e = dq then (unescChars rest2).map (dq :: ·)
        else if e = bslash then (unescChars rest2).map (bslash :: ·)
        else if e = 'u' then
          match rest2 with
          | h1 :: h2 :: h3 :: h4 :: rest3 => do
            let v ← hexValue [h1, h2, h3, h4]
            let ch ← charFromU32 v
            (unescChars rest3).map (ch :: ·)
          | _ => .error (.parse "Incomplete unicode escape")
        else if e = 'U' then
          match rest2 with
          | h1 :: h2 :: h3 :: h4 :: h5 :: h6 :: h7 :: h8 :: rest3 => do
            let v ← hexValue [h1, h2, h3, h4, h5, h6, h7, h8]
            let ch ← charFromU32 v
            (unescChars rest3).map (ch :: ·)
          | _ => .error (.parse "Incomplete unicode escape")
        else (unescChars rest2).map (fun l => bslash :: e :: l)

/-- `utils.rs::unescape_basic_string`. -/
def unescapeBasicString (value : String) : Except RErr String :=
  (unescChars value.data).map String.mk

/-- `utils.rs::strip_leading_newline`. -/
def stripLeadingNewline (value : String) : String :=
  match value.data with
  | c :: rest => if c = Char.ofNat 10 then String.mk rest else value
  | [] => value

mutual
/-- `value.rs::TycoValue`.  `TycoString` fields are inlined in the `str`
constructor's `TycoString` structure below; `Float` carries the abstract
`F64`. -/
inductive TycoValue where
  | null
  | bool (b : Bool)
  | int (i : Int)
  | float (f : F64)
  | str (s : TycoString)
  | date (s : String)
  | time (s : String)
  | datetime (s : String)
  | array (items : List TycoValue)
  | inst (i : TycoInstance)
  | ref (r : TycoReference)

/-- `value.rs::TycoString`. -/
inductive TycoString where
  | mk (value : String) (has_template : Bool) (is_literal : Bool)

/-- `value.rs::TycoInstance`: owning struct name, insertion-ordered field
map (`IndexMap` modelled as an association list with replace-in-place
insertion), and the separately maintained `field_order` vector. -/
inductive TycoInstance where
  | mk (struct_name : String) (fields : List (String × TycoValue)) (field_order : List String)

/-- `value.rs::TycoReference`. -/
inductive TycoReference where
  | mk (struct_name : String) (primary_key : String) (resolved : Option TycoInstance)
end

/-- Text of a `TycoString`. -/
def TycoString.value : TycoString → String
  | .mk v _ _ => v

/-- Template-eligibility flag of a `TycoString`. -/
def TycoString.hasTemplate : TycoString → Bool
  | .mk _ h _ => h

/-- Literal (never-templated) flag of a `TycoString`. -/
def TycoString.isLiteral : TycoString → Bool
  | .mk _ _ l => l

/-- Owning struct name of an instance. -/
def TycoInstance.structName : TycoInstance → String
  | .mk n _ _ => n

/-- Field map of an instance (insertion order). -/
def TycoInstance.fields : TycoInstance → List (String × TycoValue)
  | .mk _ f _ => f

/-- `field_order` vector of an instance. -/
def TycoInstance.fieldOrder : TycoInstance → List String
  | .mk _ _ o => o

/-- Target struct name of a reference. -/
def TycoReference.structName : TycoReference → String
  | .mk n _ _ => n

/-- Primary-key text of a reference. -/
def TycoReference.primaryKey : TycoReference → String
  | .mk _ k _ => k

/-- Resolved payload of a reference. -/
def TycoReference.resolved : TycoReference → Option TycoInstance
  | .mk _ _ r => r

/-- `IndexMap::get` on the association-list model: first binding wins. -/
def imGet {α : Type} (m : List (String × α)) (k : String) : Option α :=
  match m.find? (fun p => p.1 = k) with
  | some p => some p.2
  | none => none

/-- `IndexMap::insert`: replace the value in place when the key exists,
otherwise append. -/
def imInsert {α : Type} (m : List (String × α)) (k : String) (v : α) : List (String × α) :=
  match m with
  | [] => [(k, v)]
  | (k0, v0) :: rest =>
    if k0 = k then (k0, v) :: rest else (k0, v0) :: imInsert rest k v

/-- `IndexMap::shift_remove`: drop the binding, keeping the order of the
rest. -/
def imRemove {α : Type} (m : List (String × α)) (k : String) : List (String × α) :=
  m.filter (fun p => p.1 ≠ k)

/-- `IndexMap::contains_key`. -/
def imContains {α : Type} (m : List (String × α)) (k : String) : Bool :=
  (imGet m k).isSome

/-- `value.rs::TycoInstance::get_attribute`. -/
def TycoInstance.getAttribute (i : TycoInstance) (name : String) : Option TycoValue :=
  imGet i.fields name

/-- `value.rs::TycoInstance::set_attribute`: pushes to `field_order` only
when the key is new, then inserts into the field map. -/
def TycoInstance.setAttribute (i : TycoInstance) (name : String) (v : TycoValue) : TycoInstance :=
  match i with
  | .mk sn fields order =>
    let order := if imContains fields name then order else order ++ [name]
    .mk sn (imInsert fields name v) order

/-- `value.rs::TycoInstance::remove_attribute` (the removed value, when
present, is read with `getAttribute` separately). -/
def TycoInstance.removeAttribute (i : TycoInstance) (name : String) : TycoInstance :=
  match i with
  | .mk sn fields order => .mk sn (imRemove fields name) (order.filter (· ≠ name))

/-- In-place value update through `attributes_mut().get_mut(key)`: replaces
the value of an existing binding, touching neither positions nor
`field_order`; a missing key changes nothing. -/
def TycoInstance.setValueAt (i : TycoInstance) (name : String) (v : TycoValue) : TycoInstance :=
  match i with
  | .mk sn fields order =>
    if imContains fields name then .mk sn (imInsert fields name v) order
    else .mk sn fields order

/-- `context.rs::FieldSchema`. -/
structure FieldSchema where
  name : String
  type_name : String
  is_primary_key : Bool
  is_nullable : Bool
  is_array : Bool
  default_value : Option TycoValue

/-- `value.rs::TycoInstance::enforce_order_from_schema`. -/
def TycoInstance.enforceOrderFromSchema (i : TycoInstance) (schema : List FieldSchema) : TycoInstance :=
  match i with
  | .mk sn fields order =>
    let ordered := schema.foldl
      (fun acc f => if imContains fields f.name then acc ++ [f.name] else acc) []
    let ordered := order.foldl
      (fun acc k => if acc.contains k then acc else acc ++ [k]) ordered
    .mk sn fields ordered

/-- `context.rs::TycoStruct`: schema fields, cached primary-key field name,
instance list, and the primary index (a `HashMap` used only through keyed
insert/get, modelled as replace-or-append on an association list). -/
structure TycoStruct where
  name : String
  fields : List FieldSchema
  primary_key_field : Option String
  instances : List TycoInstance
  primary_index : List (String × TycoInstance)

/-- `context.rs::TycoStruct::new`. -/
def TycoStruct.new (name : String) : TycoStruct :=
  ⟨name, [], none, [], []⟩

/-- `context.rs::TycoStruct::add_field`. -/
def TycoStruct.addField (s : TycoStruct) (f : FieldSchema) : TycoStruct :=
  { s with
    primary_key_field := if f.is_primary_key then some f.name else s.primary_key_field
    fields := s.fields ++ [f] }

/-- `context.rs::TycoStruct::has_primary_key`. -/
def TycoStruct.hasPrimaryKey (s : TycoStruct) : Bool :=
  s.primary_key_field.isSome

/-- `context.rs::TycoStruct::set_default`. -/
def TycoStruct.setDefault (s : TycoStruct) (fieldName : String) (v : Option TycoValue) :
    Except RErr TycoStruct :=
  if s.fields.any (fun f => f.name = fieldName) then
    .ok { s with
      fields := s.fields.map (fun f =>
        if f.name = fieldName then { f with default_value := v } else f) }
  else .error (.parse ("Unknown field " ++ fieldName))

/-- `context.rs::TycoStruct::find_by_primary_key`. -/
def TycoStruct.findByPrimaryKey (s : TycoStruct) (key : String) : Option TycoInstance :=
  imGet s.primary_index key

/-- `context.rs::TycoContext`. -/
structure TycoContext where
  globals : List (String × TycoValue)
  structs : List (String × TycoStruct)

/-- `context.rs::TycoContext::new`. -/
def TycoContext.new : TycoContext := ⟨[], []⟩

/-- `context.rs::TycoContext::set_global`. -/
def TycoContext.setGlobal (c : TycoContext) (name : String) (v : TycoValue) : TycoContext :=
  { c with globals := imInsert c.globals name v }

/-- `context.rs::TycoContext::add_struct`: entry().and_modify().or_insert -
replace the schema wholesale when the name exists, else append. -/
def TycoContext.addStruct (c : TycoContext) (s : TycoStruct) : TycoContext :=
  { c with structs := imInsert c.structs s.name s }

/-- `context.rs::TycoContext::get_struct`. -/
def TycoContext.getStruct (c : TycoContext) (name : String) : Option TycoStruct :=
  imGet c.structs name

/-- Update one struct in place (`get_struct_mut` write-back). -/
def TycoContext.putStruct (c : TycoContext) (name : String) (s : TycoStruct) : TycoContext :=
  { c with structs := imInsert c.structs name s }

/-- `value.rs::TycoValue::to_template_text`.  Float text is the abstract
token (see `F64`). -/
def TycoValue.toTemplateText : TycoValue → String
  | .null => "null"
  | .bool b => if b then "true" else "false"
  | .int i => toString i
  | .float f => f.raw
  | .str s => s.value
  | .date v => v
  | .time v => v
  | .datetime v => v
  | .array _ => "[array]"
  | .inst _ => "[instance]"
  | .ref r => r.primaryKey

/-- Worker for `str::split('.')`. -/
def splitDotAux : List Char → List Char → List String
  | [], acc => [String.mk acc.reverse]
  | c :: rest, acc =>
    if c = '.' then String.mk acc.reverse :: splitDotAux rest []
    else splitDotAux rest (c :: acc)

/-- Rust `placeholder.split('.')`: always yields at least one (possibly
empty) part. -/
def splitDot (s : String) : List String :=
  splitDotAux s.data []

/-- Loop of `value.rs::resolve_placeholder::resolve_from_instance`: walk the
segment queue inside a known container; a missing segment is merged with the
following one (dotted-field retry); descending through an unresolved
reference, or through a non-container value with segments remaining, fails.
Each iteration shrinks the queue by one, so the queue length is the exact
iteration bound used as structural fuel. -/
def rfiLoop : Nat → List String → TycoInstance → Option TycoValue
  | 0, _, _ => none
  | _ + 1, [], _ => none
  | n + 1, attr :: rest, container =>
    match container.getAttribute attr with
    | some value =>
      if rest.isEmpty then some value
      else
        match value with
        | .inst i => rfiLoop n rest i
        | .ref r =>
          match r.resolved with
          | some i => rfiLoop n rest i
          | none => none
        | _ => none
    | none =>
      match rest with
      | next :: rest2 => rfiLoop n ((attr ++ "." ++ next) :: rest2) container
      | [] => none

/-- `value.rs::resolve_placeholder::resolve_from_instance`. -/
def resolveFromInstance (i : TycoInstance) (parts : List String) : Option TycoValue :=
  if parts.isEmpty then none else rfiLoop parts.length parts i

/-- Loop of `value.rs::resolve_placeholder::resolve_from_globals`: like the
instance walk, but lookups with no current container read the globals, and
descending through an unresolved reference resets the container to `None`
(so the next segment reads globals again). -/
def rfgLoop (ctx : TycoContext) : Nat → List String → Option TycoInstance → Option TycoValue
  | 0, _, _ => none
  | _ + 1, [], _ => none
  | n + 1, attr :: rest, container =>
    let value? := match container with
      | some c => c.getAttribute attr
      | none => imGet ctx.globals attr
    match value? with
    | some value =>
      if rest.isEmpty then some value
      else
        match value with
        | .inst i => rfgLoop ctx n rest (some i)
        | .ref r => rfgLoop ctx n rest r.resolved
        | _ => none
    | none =>
      match rest with
      | next :: rest2 => rfgLoop ctx n ((attr ++ "." ++ next) :: rest2) container
      | [] => none

/-- `value.rs::resolve_placeholder::resolve_from_globals`. -/
def resolveFromGlobals (ctx : TycoContext) (parts : List String) : Option TycoValue :=
  if parts.isEmpty then none else rfgLoop ctx parts.length parts none

/-- `value.rs::resolve_placeholder`: instance scope first (when inside an
instance), then - only on failure - the path behind an explicit leading
`global.` segment against globals, then the full path against globals. -/
def resolvePlaceholder (placeholder : String) (ctx : TycoContext)
    (current : Option TycoInstance) : Option String :=
  let pathParts := splitDot placeholder
  let v1 := current.bind (fun i => resolveFromInstance i pathParts)
  let v2 :=
    match v1 with
    | some v => some v
    | none =>
      if pathParts.length > 1 && pathParts.head? = some "global" then
        resolveFromGlobals ctx (pathParts.drop 1)
      else none
  let v3 :=
    match v2 with
    | some v => some v
    | none => resolveFromGlobals ctx pathParts
  v3.map TycoValue.toTemplateText

/-- Substitution text for one collected placeholder body: the resolved text,
or the placeholder verbatim, braces included. -/
def renderEmit (resolve : String → Option String) (ph : List Char) : List Char :=
  match resolve (String.mk ph) with
  | some t => t.data
  | none => lbrace :: ph ++ [rbrace]

/-- Character scan of `value.rs::TycoString::render`: outside a placeholder,
`{` starts collecting; inside, `}` ends the placeholder and substitutes; a
placeholder still open at end of input is substituted as well (the Rust
inner loop simply stops at exhaustion). -/
def renderScan (resolve : String → Option String) : List Char → Option (List Char) → List Char
  | [], none => []
  | [], some ph => renderEmit resolve ph
  | c :: rest, none =>
    if c = lbrace then renderScan resolve rest (some [])
    else c :: renderScan resolve rest none
  | c :: rest, some ph =>
    if c = rbrace then renderEmit resolve ph ++ renderScan resolve rest none
    else renderScan resolve rest (some (ph ++ [c]))

/-- `value.rs::TycoString::render`: substitute placeholders, then pass the
whole result once through the unescaper (falling back to the substituted
text when unescaping fails); clears `has_template`. -/
def TycoString.render (s : TycoString) (ctx : TycoContext) (current : Option TycoInstance) :
    TycoString :=
  if !s.hasTemplate || s.isLiteral then s
  else
    let scanned := String.mk
      (renderScan (fun ph => resolvePlaceholder ph ctx current) s.value.data none)
    let final :=
      match unescapeBasicString scanned with
      | .ok u => u
      | .error _ => scanned
    .mk final false s.isLiteral

/-- The per-instance field loop shared by `value.rs::TycoValue::render_templates`
(Instance arm) and `context.rs::TycoContext::render_templates` (per stored
instance): fields are rendered in `field_order`; the snapshot passed to the
renderer is refreshed to the current instance after every field, so a field
always sees earlier fields already rendered and later fields raw.
`rt snapshot value` renders one value against one instance snapshot. -/
def renderKeysWith (rt : TycoInstance → TycoValue → TycoValue) :
    List String → TycoInstance → TycoInstance → TycoInstance
  | [], instance_, _ => instance_
  | key :: rest, instance_, snapshot =>
    let next :=
      match instance_.getAttribute key with
      | some v => instance_.setValueAt key (rt snapshot v)
      | none => instance_
    renderKeysWith rt rest next next

/-- `value.rs::TycoValue::render_templates`, fuelled on nesting depth (fuel
exhaustion leaves the value untouched; the Rust recursion depth is the value
depth, which rendering preserves). -/
def TycoValue.renderTemplates (ctx : TycoContext) :
    Nat → Option TycoInstance → TycoValue → TycoValue
  | 0, _, v => v
  | n + 1, current, v =>
    match v with
    | .str s => .str (s.render ctx current)
    | .array items => .array (items.map (TycoValue.renderTemplates ctx n current))
    | .inst i =>
      .inst (renderKeysWith (fun snap w => TycoValue.renderTemplates ctx n (some snap) w)
        i.fieldOrder i i)
    | other => other

/-- Short-circuiting value map over a list (each Rust `for`-loop with `?`). -/
def exceptMapList {α : Type} (f : α → Except RErr α) : List α → Except RErr (List α)
  | [] => .ok []
  | x :: xs => do
    let y ← f x
    let ys ← exceptMapList f xs
    .ok (y :: ys)

/-- Short-circuiting map over the values of an association list. -/
def exceptMapSnd {α : Type} (f : α → Except RErr α) :
    List (String × α) → Except RErr (List (String × α))
  | [] => .ok []
  | (k, v) :: rest => do
    let w ← f v
    let ws ← exceptMapSnd f rest
    .ok ((k, w) :: ws)

/-- `context.rs::resolve_inline_instances::coerce_value`: array-typed fields
pass through; string-typed literal text is coerced into `int`/`float`/`bool`
field types; anything else passes through unchanged.  String-to-bool
coercion is `matches!(s, "true" | "True")` and never errors. -/
def coerceValue (v : TycoValue) (schema : FieldSchema) : Except RErr TycoValue :=
  if schema.is_array then .ok v
  else if schema.type_name = "int" then
    match v with
    | .str s =>
      match fromStrRadix 10 s.value.data with
      | some n => .ok (.int n)
      | none => .error (.parse ("Invalid int literal " ++ s.value))
    | other => .ok other
  else if schema.type_name = "float" then
    match v with
    | .str s =>
      match rustParseF64 s.value with
      | some f => .ok (.float f)
      | none => .error (.parse ("Invalid float literal " ++ s.value))
    | other => .ok other
  else if schema.type_name = "bool" then
    match v with
    | .str s => .ok (.bool (s.value == "true" || s.value == "True"))
    | other => .ok other
  else .ok v

/-- Rust `str::parse::<usize>`: optional `+`, one or more decimal digits,
below `2^64`. -/
def parseUsize (s : String) : Option Nat :=
  let body := match s.data with
    | '+' :: rest => rest
    | cs => cs
  (digitsToNat 10 body).bind (fun v => if v < 2 ^ 64 then some v else none)

/-- `key.strip_prefix("_arg")` followed by `parse::<usize>` from
`apply_schema`'s positional-placeholder collection. -/
def argIndexOf (key : String) : Option Nat :=
  if "_arg".data.isPrefixOf key.data then parseUsize (String.mk (key.data.drop 4))
  else none

/-- Stable insertion into a list sorted by the numeric key
(`Vec::sort_by_key` is stable). -/
def insertByIdx (p : Nat × String) : List (Nat × String) → List (Nat × String)
  | [] => [p]
  | q :: rest => if q.1 ≤ p.1 then q :: insertByIdx p rest else p :: q :: rest

/-- Stable sort by the numeric key. -/
def sortByIdx : List (Nat × String) → List (Nat × String)
  | [] => []
  | p :: rest => insertByIdx p (sortByIdx rest)

/-- Positional-placeholder rebinding loop of `apply_schema`: each collected
`_argN` key whose index names a schema field is removed and re-inserted,
coerced, under the schema field's name; out-of-range indices are skipped. -/
def rebindLoop (schemaFields : List FieldSchema) :
    List (Nat × String) → TycoInstance → Except RErr TycoInstance
  | [], i => .ok i
  | (idx, placeholder) :: rest, i =>
    match schemaFields.get? idx with
    | some fs =>
      match i.getAttribute placeholder with
      | some value => do
        let i := i.removeAttribute placeholder
        let coerced ← coerceValue value fs
        rebindLoop schemaFields rest (i.setAttribute fs.name coerced)
      | none => rebindLoop schemaFields rest i
    | none => rebindLoop schemaFields rest i

/-- Schema-field loop of `apply_schema`: an existing value for the field
name is removed, coerced and re-set; an absent one falls back to the field's
configured default (set uncoerced). -/
def coerceFields : List FieldSchema → TycoInstance → Except RErr TycoInstance
  | [], i => .ok i
  | f :: rest, i =>
    match i.getAttribute f.name with
    | some value => do
      let i := i.removeAttribute f.name
      let coerced ← coerceValue value f
      coerceFields rest (i.setAttribute f.name coerced)
    | none =>
      match f.default_value with
      | some d => coerceFields rest (i.setAttribute f.name d)
      | none => coerceFields rest i

/-- `context.rs::resolve_inline_instances::apply_schema`, parameterised by
the recursive value resolver `rv` applied to every attribute value at the
end (the Rust code passes `resolve_value` with the schema snapshot). -/
def applySchemaWith (rv : TycoValue → Except RErr TycoValue) (i : TycoInstance)
    (schema : TycoStruct) : Except RErr TycoInstance := do
  let positional := sortByIdx (i.fieldOrder.filterMap
    (fun key => (argIndexOf key).map (fun idx => (idx, key))))
  let i ← rebindLoop schema.fields positional i
  let i ← coerceFields schema.fields i
  let i := i.enforceOrderFromSchema schema.fields
  match i with
  | .mk sn fields order => (exceptMapSnd rv fields).map (fun fs => TycoInstance.mk sn fs order)

/-- `context.rs::resolve_inline_instances::resolve_value`: recurse through
arrays; apply the schema to instances of known structs (instances of unknown
structs are left untouched); everything else passes through. -/
def resolveValue (schemas : List (String × TycoStruct)) : Nat → TycoValue → Except RErr TycoValue
  | 0, _ => .error .fuelOut
  | n + 1, v =>
    match v with
    | .array items => (exceptMapList (resolveValue schemas n) items).map .array
    | .inst i =>
      match imGet schemas i.structName with
      | some schema => (applySchemaWith (resolveValue schemas n) i schema).map .inst
      | none => .ok (.inst i)
    | other => .ok other

/-- Struct loop of `resolve_inline_instances`: every stored instance goes
through `apply_schema` against the snapshot schema of its struct (falling
back to the struct's current schema when absent from the snapshot). -/
def riiStructs (snapshot : List (String × TycoStruct)) (fuel : Nat) :
    List (String × TycoStruct) → Except RErr (List (String × TycoStruct))
  | [] => .ok []
  | (name, sd) :: rest => do
    let schemaCow := (imGet snapshot name).getD sd
    let insts ← exceptMapList
      (fun i => applySchemaWith (resolveValue snapshot fuel) i schemaCow) sd.instances
    let rest' ← riiStructs snapshot fuel rest
    .ok ((name, { sd with instances := insts }) :: rest')

/-- `context.rs::TycoContext::resolve_inline_instances` (the coercion pass):
reads from a schema snapshot taken before any mutation, walks every global
and every stored instance. -/
def resolveInlineInstances (fuel : Nat) (ctx : TycoContext) : Except RErr TycoContext := do
  let snapshot := ctx.structs
  let globals ← exceptMapSnd (resolveValue snapshot fuel) ctx.globals
  let structs ← riiStructs snapshot fuel ctx.structs
  .ok ⟨globals, structs⟩

/-- `context.rs::TycoStruct::build_primary_index`: clear, then (when a
primary-key field exists) index every instance's key text; a later instance
overwrites an earlier one under the same key. -/
def TycoStruct.buildPrimaryIndex (s : TycoStruct) : TycoStruct :=
  match s.primary_key_field with
  | none => { s with primary_index := [] }
  | some pk =>
    { s with
      primary_index := s.instances.foldl (fun idx i =>
        match i.getAttribute pk with
        | some v => imInsert idx v.toTemplateText i
        | none => idx) [] }

/-- `context.rs::resolve_references::visit`: resolve every reference against
the snapshot (unknown struct and missing key are fatal, otherwise the
matched indexed instance is attached as the payload), recursing through
arrays and instance fields.  The payload is the snapshot's own instance
value - in the Rust code an owned `clone`, never an alias into the live
instance list. -/
def visitValue (structs : List (String × TycoStruct)) : Nat → TycoValue → Except RErr TycoValue
  | 0, _ => .error .fuelOut
  | n + 1, v =>
    match v with
    | .ref r =>
      match imGet structs r.structName with
      | none => .error (.unknownStruct r.structName)
      | some sd =>
        match sd.findByPrimaryKey r.primaryKey with
        | none =>
          .error (.reference ("Unknown " ++ r.structName ++ "(" ++ r.primaryKey ++ ")"))
        | some found => .ok (.ref (.mk r.structName r.primaryKey (some found)))
    | .array items => (exceptMapList (visitValue structs n) items).map .array
    | .inst (.mk sn fields order) =>
      (exceptMapSnd (visitValue structs n) fields).map (fun fs => .inst (.mk sn fs order))
    | other => .ok other

/-- Struct loop of `resolve_references`: visit every field value of every
stored instance. -/
def rrStructs (snapshot : List (String × TycoStruct)) (fuel : Nat) :
    List (String × TycoStruct) → Except RErr (List (String × TycoStruct))
  | [] => .ok []
  | (name, sd) :: rest => do
    let insts ← exceptMapList
      (fun i =>
        match i with
        | .mk sn fields order =>
          (exceptMapSnd (visitValue snapshot fuel) fields).map
            (fun fs => TycoInstance.mk sn fs order))
      sd.instances
    let rest' ← rrStructs snapshot fuel rest
    .ok ((name, { sd with instances := insts }) :: rest')

/-- `context.rs::TycoContext::resolve_references` (the reference-resolution
pass): lookups go against a snapshot of the structs taken before the pass
mutates anything; globals are visited first, then every stored instance. -/
def resolveReferencesCtx (fuel : Nat) (ctx : TycoContext) : Except RErr TycoContext := do
  let snapshot := ctx.structs
  let globals ← exceptMapSnd (visitValue snapshot fuel) ctx.globals
  let structs ← rrStructs snapshot fuel ctx.structs
  .ok ⟨globals, structs⟩

/-- Global loop of `context.rs::TycoContext::render_templates`: each global
is rendered against the context snapshot (no enclosing instance) and then
written back into both the live globals and the snapshot. -/
def rtGlobals (fuel : Nat) :
    List String → List (String × TycoValue) → TycoContext →
      List (String × TycoValue) × TycoContext
  | [], gs, snap => (gs, snap)
  | key :: rest, gs, snap =>
    match imGet gs key with
    | none => rtGlobals fuel rest gs snap
    | some v =>
      let w := TycoValue.renderTemplates snap fuel none v
      rtGlobals fuel rest (imInsert gs key w)
        { snap with globals := imInsert snap.globals key w }

/-- `Vec` element write-or-push used for the snapshot instance slot. -/
def listSetOrPush {α : Type} (l : List α) (idx : Nat) (v : α) : List α :=
  if idx < l.length then l.set idx v else l ++ [v]

/-- Instance loop of `render_templates` for one struct: each instance's
fields are rendered via the shared per-field loop (`renderKeysWith`) against
the current context snapshot, then the snapshot's slot for that instance is
refreshed, so later instances and structs see earlier ones fully rendered. -/
def rtInstances (fuel : Nat) (name : String) :
    List TycoInstance → Nat → TycoContext → List TycoInstance × TycoContext
  | [], _, snap => ([], snap)
  | i :: rest, idx, snap =>
    let rendered := renderKeysWith
      (fun s v => TycoValue.renderTemplates snap fuel (some s) v) i.fieldOrder i i
    let snap' :=
      match imGet snap.structs name with
      | some sd =>
        let sd2 := { sd with instances := listSetOrPush sd.instances idx rendered }
        { snap with structs := imInsert snap.structs name sd2 }
      | none => snap
    let (restOut, snapFinal) := rtInstances fuel name rest (idx + 1) snap'
    (rendered :: restOut, snapFinal)

/-- Struct loop of `render_templates`. -/
def rtStructs (fuel : Nat) :
    List String → List (String × TycoStruct) → TycoContext →
      List (String × TycoStruct) × TycoContext
  | [], ss, snap => (ss, snap)
  | name :: rest, ss, snap =>
    match imGet ss name with
    | none => rtStructs fuel rest ss snap
    | some sd =>
      let (insts, snap') := rtInstances fuel name sd.instances 0 snap
      rtStructs fuel rest (imInsert ss name { sd with instances := insts }) snap'

/-- `context.rs::TycoContext::render_templates` (the template-rendering
pass): snapshot the whole context, render globals in order, then every
struct's instances in order. -/
def renderTemplatesCtx (fuel : Nat) (ctx : TycoContext) : TycoContext :=
  let (globals1, snap1) := rtGlobals fuel (ctx.globals.map Prod.fst) ctx.globals ctx
  let (structs1, _) := rtStructs fuel (ctx.structs.map Prod.fst) ctx.structs snap1
  ⟨globals1, structs1⟩

/-- `context.rs::TycoContext::render`: the four passes in order - coercion,
primary-key indexing, reference resolution, template rendering. -/
def TycoContext.render (fuel : Nat) (ctx : TycoContext) : Except RErr TycoContext := do
  let ctx1 ← resolveInlineInstances fuel ctx
  let ctx2 : TycoContext :=
    ⟨ctx1.globals, ctx1.structs.map (fun p => (p.1, p.2.buildPrimaryIndex))⟩
  let ctx3 ← resolveReferencesCtx fuel ctx2
  .ok (renderTemplatesCtx fuel ctx3)

/-- The JSON output tree (`serde_json::Value`; numbers split into the `i64`
and abstract-`f64` cases actually produced by `to_json_value`). -/
inductive Json where
  | null
  | bool (b : Bool)
  | int (i : Int)
  | float (f : F64)
  | str (s : String)
  | arr (items : List Json)
  | obj (fields : List (String × Json))

/-- Byte-lexicographic (equivalently codepoint-lexicographic) order used by
`serde_json::Map`'s `BTreeMap` keys. -/
def charListLt : List Char → List Char → Bool
  | [], [] => false
  | [], _ :: _ => true
  | _ :: _, [] => false
  | a :: ar, b :: br =>
    if a.toNat < b.toNat then true
    else if b.toNat < a.toNat then false
    else charListLt ar br

/-- `serde_json::Map::insert`: sorted by key, replace on duplicate. -/
def objInsert (m : List (String × Json)) (k : String) (v : Json) : List (String × Json) :=
  match m with
  | [] => [(k, v)]
  | (k0, v0) :: rest =>
    if k0 = k then (k0, v) :: rest
    else if charListLt k.data k0.data then (k, v) :: (k0, v0) :: rest
    else (k0, v0) :: objInsert rest k v

/-- `value.rs::TycoValue::to_json_value` (fuelled on value depth; an
unresolved reference projects to `null`). -/
def TycoValue.toJson : Nat → TycoValue → Json
  | 0, _ => .null
  | n + 1, v =>
    match v with
    | .null => .null
    | .bool b => .bool b
    | .int i => .int i
    | .float f => .float f
    | .str s => .str s.value
    | .date s => .str s
    | .time s => .str s
    | .datetime s => .str s
    | .array items => .arr (items.map (TycoValue.toJson n))
    | .inst i =>
      .obj (i.fieldOrder.foldl (fun m key =>
        match i.getAttribute key with
        | some w => objInsert m key (TycoValue.toJson n w)
        | none => m) [])
    | .ref r =>
      match r.resolved with
      | some i => TycoValue.toJson n (.inst i)
      | none => .null

/-- `context.rs::TycoContext::to_json`: one entry per global plus, for every
struct with a primary key, an array of instance objects. -/
def TycoContext.toJson (fuel : Nat) (ctx : TycoContext) : Json :=
  let m := ctx.globals.foldl (fun m p => objInsert m p.1 (TycoValue.toJson fuel p.2)) []
  let m := ctx.structs.foldl (fun m p =>
    if p.2.primary_key_field.isSome then
      objInsert m p.1 (.arr (p.2.instances.map (fun i =>
        Json.obj (i.fieldOrder.foldl (fun o key =>
          match i.getAttribute key with
          | some w => objInsert o key (TycoValue.toJson fuel w)
          | none => o) []))))
    else m) m
  .obj m

/-- The triple-double-quote delimiter. -/
def tripleDq : String := String.mk [dq, dq, dq]

/-- The triple-single-quote delimiter. -/
def tripleSq : String := String.mk [sq, sq, sq]

/-- Rust `str::contains` for a substring pattern. -/
def containsStr (s pat : String) : Bool :=
  hasSubstr s.data pat.data

/-- Content before the first occurrence of `pat` (`str::find` + slice up to
the match); `none` when `pat` does not occur. -/
def beforeFirstSubstr (cs pat : List Char) : Option (List Char) :=
  match cs with
  | [] => if pat.isEmpty then some [] else none
  | c :: rest =>
    if pat.isPrefixOf cs then some []
    else (beforeFirstSubstr rest pat).map (c :: ·)

/-- `parser.rs::parse_string_value`: the four string-literal forms, falling
back to bare template-eligible text.  A one-character `"` or `'` token makes
the Rust code slice `token[1..0]`, a panic. -/
def parseStringValue (token : String) : Except RErr TycoString :=
  let cs := token.data
  let tdClose := beforeFirstSubstr (cs.drop 3) tripleDq.data
  let tsClose := beforeFirstSubstr (cs.drop 3) tripleSq.data
  if tripleDq.data.isPrefixOf cs && tdClose.isSome then
    match tdClose with
    | some raw => do
      let content := stripLeadingNewline (String.mk raw)
      let content ← unescapeBasicString content
      .ok (.mk content (content.data.contains lbrace && content.data.contains rbrace) false)
    | none => .error .panic
  else if tripleSq.data.isPrefixOf cs && tsClose.isSome then
    match tsClose with
    | some raw => .ok (.mk (String.mk raw) false true)
    | none => .error .panic
  else if cs.head? = some dq && cs.getLast? = some dq then
    if cs.length = 1 then .error .panic
    else do
      let inner := (cs.drop 1).dropLast
      let content ← unescapeBasicString (String.mk inner)
      .ok (.mk content (content.data.contains lbrace && content.data.contains rbrace) false)
  else if cs.head? = some sq && cs.getLast? = some sq then
    if cs.length = 1 then .error .panic
    else .ok (.mk (String.mk ((cs.drop 1).dropLast)) false true)
  else
    .ok (.mk token (cs.contains lbrace && cs.contains rbrace) false)

/-- `parser.rs::TycoParser::is_valid_field_name`. -/
def isValidFieldName (name : String) : Bool :=
  match name.data with
  | first :: rest =>
    (isAsciiAlphabetic first || first = '_') &&
      rest.all (fun c => isAsciiAlphanumeric c || c = '_')
  | [] => false

/-- Loop of `parser.rs::TycoParser::split_named_argument`: scan the char
vector for a top-level unquoted `:`; on finding one, byte-slice the part at
the *char* index (outer `none` = panic on a non-boundary with multi-byte
text before the colon); an invalid name or empty value just continues the
scan.  Inner `some`/`none` mirror the Rust `Some`/`None` results. -/
def snaLoop (allChars : List Char) :
    Nat → Nat → Bool → Char → Int → Option (Option (String × String))
  | 0, _, _, _, _ => some none
  | n + 1, idx, inQ, qc, depth =>
    match allChars.get? idx with
    | none => some none
    | some ch =>
      if inQ then
        if ch = qc then snaLoop allChars n (idx + 1) false qc depth
        else if ch = bslash then snaLoop allChars n (idx + 2) inQ qc depth
        else snaLoop allChars n (idx + 1) inQ qc depth
      else
        if ch = dq || ch = sq then snaLoop allChars n (idx + 1) true ch depth
        else if ch = '(' || ch = '[' || ch = lbrace then
          snaLoop allChars n (idx + 1) inQ qc (depth + 1)
        else if ch = ')' || ch = ']' || ch = rbrace then
          snaLoop allChars n (idx + 1) inQ qc (satSubOne depth)
        else if ch = ':' && depth = 0 then
          match takeBytes allChars idx, dropBytes allChars (idx + 1) with
          | some namePart, some valuePart =>
            let nm := String.mk (trimChars namePart)
            let vl := String.mk (trimChars valuePart)
            if isValidFieldName nm && !vl.isEmpty then some (some (nm, vl))
            else snaLoop allChars n (idx + 1) inQ qc depth
          | _, _ => none
        else snaLoop allChars n (idx + 1) inQ qc depth

/-- `parser.rs::TycoParser::split_named_argument` (`none` = panic). -/
def splitNamedArgument (part : String) : Option (Option (String × String)) :=
  snaLoop part.data (part.data.length + 1) 0 false nul 0

/-- `parser.rs::field_type_descriptor`. -/
def fieldTypeDescriptor (base : String) (isArray : Bool) : String :=
  if isArray then base ++ "[]" else base

/-- `parser.rs::field_type_name`. -/
def fieldTypeName (f : FieldSchema) : String :=
  fieldTypeDescriptor f.type_name f.is_array

/-- Argument loop of `parser.rs::TycoParser::parse_inline_instance`: named
tokens are stored by name, positional tokens under synthetic `_argN` names
carrying their index; every value is parsed as a plain string literal.
There is no positional-after-named check on this path. -/
def inlineParts : List String → TycoInstance → Nat → Except RErr TycoInstance
  | [], i, _ => .ok i
  | part :: rest, i, position =>
    match splitNamedArgument part with
    | none => .error .panic
    | some (some (nm, value)) => do
      let parsed ← parseStringValue (rustTrim value)
      inlineParts rest (i.setAttribute nm (.str parsed)) position
    | some none => do
      let parsed ← parseStringValue (rustTrim part)
      inlineParts rest (i.setAttribute ("_arg" ++ toString position) (.str parsed)) (position + 1)

/-- `parser.rs::TycoParser::parse_inline_instance`. -/
def parseInlineInstance (structName args : String) : Except RErr TycoInstance :=
  inlineParts (splitTopLevel args ',') (TycoInstance.mk structName [] []) 0

/-- Match of `STRUCT_CALL_RE` (`^([A-Za-z][A-Za-z0-9_]*)\((.*)\)$`): an
identifier, an opening paren right after it, and a closing paren as the very
last character; the greedy group is everything in between. -/
def structCallMatch (token : String) : Option (String × String) :=
  match token.data with
  | c :: rest =>
    if isAlphaAZ c then
      let identRest := rest.takeWhile isIdentChar
      match rest.drop identRest.length with
      | '(' :: argsAndClose =>
        match argsAndClose.getLast? with
        | some cc =>
          if cc = ')' then some (String.mk (c :: identRest), String.mk argsAndClose.dropLast)
          else none
        | none => none
      | _ => none
    else none
  | [] => none

/-- `parser.rs::TycoParser::parse_struct_call`: a call on a struct with a
primary key (or on an unknown name) builds an unresolved reference from the
argument as a plain string; a call on a known struct without a primary key
builds an inline instance. -/
def parseStructCall (ctx : TycoContext) (token typeName : String) : Except RErr TycoValue :=
  match structCallMatch token with
  | some (structName, args) =>
    match ctx.getStruct structName with
    | some sd =>
      if sd.hasPrimaryKey then
        (parseStringValue (rustTrim args)).map (fun s => .ref (.mk structName s.value none))
      else
        (parseInlineInstance structName args).map .inst
    | none =>
      (parseStringValue (rustTrim args)).map (fun s => .ref (.mk structName s.value none))
  | none => .error (.parse ("Cannot parse value " ++ token ++ " as type " ++ typeName))

/-- Element loop of the array arm of `parse_value`. -/
def parseArrayItems (pv : String → Except RErr TycoValue) :
    List String → Except RErr (List TycoValue)
  | [] => .ok []
  | item :: rest =>
    if (rustTrim item).isEmpty then parseArrayItems pv rest
    else do
      let v ← pv (rustTrim item)
      let vs ← parseArrayItems pv rest
      .ok (v :: vs)

/-- `parser.rs::TycoParser::parse_value`, fuelled on array nesting depth:
`null` always parses; primitives by type name; `type[]` splits the
bracketed token on top-level commas and recurses on the base type; any
other type name goes through the struct-call grammar. -/
def parseValue (ctx : TycoContext) : Nat → String → String → Except RErr TycoValue
  | 0, _, _ => .error .fuelOut
  | n + 1, token, typeName =>
    let trimmed := rustTrim token
    if eqIgnoreAsciiCase trimmed "null" then .ok .null
    else if typeName = "bool" then
      if trimmed = "true" then .ok (.bool true)
      else if trimmed = "false" then .ok (.bool false)
      else .error (.parse ("Invalid bool literal " ++ trimmed))
    else if typeName = "int" then (parseInteger trimmed).map .int
    else if typeName = "float" then
      match rustParseF64 trimmed with
      | some f => .ok (.float f)
      | none => .error (.parse ("Invalid float literal " ++ trimmed))
    else if typeName = "date" then (parseStringValue trimmed).map (fun s => .date s.value)
    else if typeName = "time" then
      (parseStringValue trimmed).map (fun s => .time (normalizeTime s.value))
    else if typeName = "datetime" then
      (parseStringValue trimmed).map (fun s => .datetime (normalizeDatetime s.value))
    else if typeName = "str" then (parseStringValue trimmed).map .str
    else if typeName.data.getLast? = some ']' && (typeName.data.dropLast).getLast? = some '[' then
      let base := String.mk ((typeName.data.dropLast).dropLast)
      if trimmed = "[]" then .ok (.array [])
      else if trimmed.data.head? = some '[' && trimmed.data.getLast? = some ']' then
        let inner := String.mk ((trimmed.data.drop 1).dropLast)
        (parseArrayItems (fun item => parseValue ctx n item base)
          (splitTopLevel inner ',')).map .array
      else .error (.parse ("Array literal must be wrapped in []: " ++ trimmed))
    else parseStructCall ctx trimmed typeName

/-- Argument loop of `parser.rs::TycoParser::parse_struct_instances` over
the top-level comma split of one buffered instance line: empty tokens are
skipped, `name: value` tokens bind by name (unknown names are fatal), and a
positional token after any named token is the fatal mixing error;
positional tokens bind schema fields in declared order. -/
def processParts (ctx : TycoContext) (vfuel : Nat) (structName : String)
    (fields : List FieldSchema) :
    List String → TycoInstance → Nat → Bool → Except RErr TycoInstance
  | [], i, _, _ => .ok i
  | part0 :: rest, i, posIdx, usingNamed =>
    let part := rustTrim part0
    if part.isEmpty then processParts ctx vfuel structName fields rest i posIdx usingNamed
    else
      match splitNamedArgument part with
      | none => .error .panic
      | some (some (fieldName, value)) =>
        match fields.find? (fun f => f.name = fieldName) with
        | none => .error (.parse ("Unknown field " ++ fieldName ++ " in " ++ structName))
        | some schema => do
          let tv ← parseValue ctx vfuel (rustTrim value) (fieldTypeName schema)
          processParts ctx vfuel structName fields rest (i.setAttribute fieldName tv) posIdx true
      | some none =>
        if usingNamed then
          .error (.parse "Positional arguments cannot follow named arguments")
        else
          match fields.get? posIdx with
          | none => .error (.parse ("Too many positional arguments for " ++ structName))
          | some schema => do
            let tv ← parseValue ctx vfuel part (fieldTypeName schema)
            processParts ctx vfuel structName fields rest
              (i.setAttribute schema.name tv) (posIdx + 1) usingNamed

/-- Per-line loop of `parse_struct_instances`: each buffered line becomes
one instance appended to the struct. -/
def psiLines (vfuel : Nat) (structName : String) (fields : List FieldSchema) :
    List String → TycoContext → Except RErr TycoContext
  | [], ctx => .ok ctx
  | line :: rest, ctx => do
    let i ← processParts ctx vfuel structName fields (splitTopLevel line ',')
      (TycoInstance.mk structName [] []) 0 false
    match ctx.getStruct structName with
    | none => .error (.unknownStruct structName)
    | some sd =>
      psiLines vfuel structName fields rest
        (ctx.putStruct structName { sd with instances := sd.instances ++ [i] })

/-- `parser.rs::TycoParser::parse_struct_instances`: the schema fields are
snapshotted once before any instance is added. -/
def parseStructInstances (vfuel : Nat) (structName : String)
    (instanceLines : List String) (ctx : TycoContext) : Except RErr TycoContext :=
  if instanceLines.isEmpty then .ok ctx
  else
    match ctx.getStruct structName with
    | none => .error (.unknownStruct structName)
    | some sd => psiLines vfuel structName sd.fields instanceLines ctx

/-- `parser.rs::ParseState`. -/
inductive ParseState where
  | topLevel
  | inStructSchema
  | inStructInstances
deriving DecidableEq

/-- Mutable state of the `parse_lines` loop: the document under
construction, the parse state, the currently open struct, and the buffered
raw instance lines. -/
structure PLState where
  ctx : TycoContext
  state : ParseState
  currentStruct : Option String
  instanceLines : List String

/-- Match of `STRUCT_DEF_RE` (`^([A-Z][A-Za-z0-9_]*)\s*:$`) against the
comment-stripped, trimmed line. -/
def structDefMatch (s : String) : Option String :=
  match s.data with
  | c :: rest =>
    if isUpperAZ c then
      let identRest := rest.takeWhile isIdentChar
      let after := (rest.drop identRest.length).dropWhile (fun w => rustIsWhitespace w)
      if after = [':'] then some (String.mk (c :: identRest)) else none
    else none
  | [] => none

/-- Match of `FIELD_RE`
(`^\s*([*?])?([A-Za-z][A-Za-z0-9_]*)(\[\])?\s+([a-z_][A-Za-z0-9_]*)\s*:(?:\s+(.*))?$`)
against the raw line text: optional modifier, type name, optional array
suffix, attribute name, and the optional default literal after the colon. -/
def fieldMatch (s : String) : Option (Option Char × String × Bool × String × Option String) :=
  let cs1 := s.data.dropWhile (fun w => rustIsWhitespace w)
  let (modC, cs2) :=
    match cs1 with
    | c :: rest => if c = '*' || c = '?' then (some c, rest) else (none, cs1)
    | [] => (none, cs1)
  match cs2 with
  | c :: rest =>
    if isAlphaAZ c then
      let identRest := rest.takeWhile isIdentChar
      let typeName := String.mk (c :: identRest)
      let cs3 := rest.drop identRest.length
      let (isArr, cs4) :=
        match cs3 with
        | '[' :: ']' :: r => (true, r)
        | _ => (false, cs3)
      let ws := cs4.takeWhile (fun w => rustIsWhitespace w)
      if ws.isEmpty then none
      else
        match cs4.drop ws.length with
        | a :: arest =>
          if isLowerAZ a || a = '_' then
            let aRest := arest.takeWhile isIdentChar
            let attrName := String.mk (a :: aRest)
            match (arest.drop aRest.length).dropWhile (fun w => rustIsWhitespace w) with
            | ':' :: cs8 =>
              match cs8 with
              | [] => some (modC, typeName, isArr, attrName, none)
              | _ =>
                let ws2 := cs8.takeWhile (fun w => rustIsWhitespace w)
                if ws2.isEmpty then none
                else some (modC, typeName, isArr, attrName, some (String.mk (cs8.drop ws2.length)))
            | _ => none
          else none
        | [] => none
    else none
  | [] => none

/-- Match of `DEFAULT_UPDATE_RE`
(`^\s+([a-z_][A-Za-z0-9_]*)\s*:(?:\s+(.*))?$`) against the raw line text. -/
def defaultUpdateMatch (s : String) : Option (String × Option String) :=
  let ws := s.data.takeWhile (fun w => rustIsWhitespace w)
  if ws.isEmpty then none
  else
    match s.data.drop ws.length with
    | a :: arest =>
      if isLowerAZ a || a = '_' then
        let aRest := arest.takeWhile isIdentChar
        let fieldName := String.mk (a :: aRest)
        match (arest.drop aRest.length).dropWhile (fun w => rustIsWhitespace w) with
        | ':' :: cs8 =>
          match cs8 with
          | [] => some (fieldName, none)
          | _ =>
            let ws2 := cs8.takeWhile (fun w => rustIsWhitespace w)
            if ws2.isEmpty then none
            else some (fieldName, some (String.mk (cs8.drop ws2.length)))
        | _ => none
      else none
    | [] => none

/-- The newline string pushed between accumulated physical lines. -/
def nlStr : String := String.mk [Char.ofNat 10]

/-- `parser.rs::TycoParser::accumulate_multiline`: append raw following
lines (joined with a newline) until the open triple-quote delimiter closes
or input runs out; returns the accumulated literal and the new cursor. -/
def accumulateMultiline (lines : List String) :
    Nat → Nat → String → String → String × Nat
  | 0, cursor, value, _ => (value, cursor)
  | n + 1, cursor, value, delim =>
    if cursor + 1 < lines.length && hasUnclosedDelimiter value delim then
      let cursor2 := cursor + 1
      let value2 := value ++ nlStr ++ ((lines.get? cursor2).getD "")
      if !hasUnclosedDelimiter value2 delim then (value2, cursor2)
      else accumulateMultiline lines n cursor2 value2 delim
    else (value, cursor)

/-- Backslash-continuation loop of the instance-bullet branch: while the
joined line ends in `\`, drop the backslash and append the next line's
comment-stripped, trimmed text after a single space. -/
def joinBackslash (lines : List String) :
    Nat → Nat → String → Except RErr (String × Nat)
  | 0, idx, cur => .ok (cur, idx)
  | n + 1, idx, cur =>
    if cur.data.getLast? = some bslash && idx + 1 < lines.length then
      match stripInlineComment ((lines.get? (idx + 1)).getD "") with
      | none => .error .panic
      | some stripped =>
        joinBackslash lines n (idx + 1)
          (String.mk cur.data.dropLast ++ " " ++ rustTrim stripped)
    else .ok (cur, idx)

/-- Struct-header handling inside `parse_lines`: a name that is not yet
declared gets a fresh empty struct; an existing name is left untouched
(re-opened, not replaced). -/
def processStructHeader (ctx : TycoContext) (name : String) : TycoContext :=
  if (ctx.getStruct name).isNone then ctx.addStruct (TycoStruct.new name) else ctx

/-- `get_struct_mut(..).ok_or(UnknownStruct)?.add_field(field)`: append one
field schema to the named struct. -/
def addFieldToStruct (ctx : TycoContext) (sn : String) (fld : FieldSchema) :
    Except RErr TycoContext :=
  match ctx.getStruct sn with
  | none => .error (.unknownStruct sn)
  | some sd => .ok (ctx.putStruct sn (sd.addField fld))

/-- Append the continuation text to the most recently buffered instance
line (no-op when nothing is buffered). -/
def appendToLast (ls : List String) (suffix : String) : List String :=
  match ls.getLast? with
  | none => ls
  | some last => ls.dropLast ++ [last ++ " " ++ suffix]

/-- Rust `str::lines`: split on `\n`, drop the final empty piece, strip one
trailing `\r` per line. -/
def splitOnChar (delim : Char) : List Char → List Char → List (List Char)
  | [], acc => [acc.reverse]
  | c :: rest, acc =>
    if c = delim then acc.reverse :: splitOnChar delim rest []
    else splitOnChar delim rest (c :: acc)

/-- `content.lines()` as used by `parse_str`. -/
def rustLines (content : String) : List String :=
  if content.data.isEmpty then []
  else
    let pieces := splitOnChar (Char.ofNat 10) content.data []
    let pieces := if pieces.getLast? = some [] then pieces.dropLast else pieces
    pieces.map (fun l =>
      String.mk (if l.getLast? = some (Char.ofNat 13) then l.dropLast else l))

/-- Multiline-capture step shared by the field-declaration and
default-update branches: when the literal has an unclosed triple quote, the
delimiter is chosen by `contains` on the double-quoted form first, and the
following lines are accumulated. -/
def captureMultiline (lines : List String) (idx : Nat) (valueStr : String) : String × Nat :=
  if hasUnclosedDelimiter valueStr tripleDq || hasUnclosedDelimiter valueStr tripleSq then
    let delim := if containsStr valueStr tripleDq then tripleDq else tripleSq
    accumulateMultiline lines (lines.length + 1) idx valueStr delim
  else (valueStr, idx)

/-- The per-line loop of `parser.rs::TycoParser::parse_lines`, with the
line-dispatch precedence of the source: struct header, field declaration,
default update, instance bullet, bare continuation, skip.  At end of input
the buffered instance lines are flushed and the four-pass resolution
(`TycoContext::render`) runs.  The loop fuel is one more than the number of
lines (the cursor strictly advances each iteration). -/
def parseLinesLoop (vfuel : Nat) (lines : List String) :
    Nat → Nat → PLState → Except RErr TycoContext
  | 0, _, _ => .error .fuelOut
  | fuel + 1, idx, st =>
    match lines.get? idx with
    | none => do
      let ctx ←
        match st.currentStruct with
        | some sn =>
          if !st.instanceLines.isEmpty then
            parseStructInstances vfuel sn st.instanceLines st.ctx
          else .ok st.ctx
        | none => .ok st.ctx
      TycoContext.render vfuel ctx
    | some line =>
      match stripInlineComment line with
      | none => .error .panic
      | some trimmed =>
        let trimmedWs := rustTrim trimmed
        if trimmedWs.isEmpty then parseLinesLoop vfuel lines fuel (idx + 1) st
        else
          match structDefMatch trimmedWs with
          | some name => do
            let flushed ←
              match st.currentStruct, st.state with
              | some sn, .inStructInstances => do
                let c ← parseStructInstances vfuel sn st.instanceLines st.ctx
                Except.ok (c, ([] : List String))
              | _, _ => Except.ok (st.ctx, st.instanceLines)
            parseLinesLoop vfuel lines fuel (idx + 1)
              ⟨processStructHeader flushed.1 name, .inStructSchema, some name, flushed.2⟩
          | none =>
            match fieldMatch line with
            | some (modC, typeName, isArr, attrName, valOpt) =>
              let captured := captureMultiline lines idx (valOpt.getD "")
              match stripInlineComment captured.1 with
              | none => .error .panic
              | some valueStr =>
                let isGlobal := (line.data.head?.map (fun c => !rustIsWhitespace c)).getD false
                if !isGlobal && st.currentStruct.isNone then
                  .error (.parse "Struct field defined before struct header")
                else if !isGlobal then
                  match st.currentStruct with
                  | none => .error .panic
                  | some sn => do
                    let fld : FieldSchema :=
                      ⟨attrName, typeName, modC = some '*', modC = some '?', isArr, none⟩
                    let fld ←
                      if valueStr ≠ "" then do
                        let parsed ← parseValue st.ctx vfuel valueStr (fieldTypeName fld)
                        pure { fld with default_value := some parsed }
                      else pure fld
                    let ctx2 ← addFieldToStruct st.ctx sn fld
                    parseLinesLoop vfuel lines fuel (captured.2 + 1)
                      ⟨ctx2, .inStructSchema, st.currentStruct, st.instanceLines⟩
                else do
                  let value ← parseValue st.ctx vfuel valueStr (fieldTypeDescriptor typeName isArr)
                  parseLinesLoop vfuel lines fuel (captured.2 + 1)
                    ⟨st.ctx.setGlobal attrName value, .topLevel, st.currentStruct, st.instanceLines⟩
            | none =>
              match defaultUpdateMatch line, st.currentStruct with
              | some (fieldName, valOpt), some sn =>
                let captured := captureMultiline lines idx (valOpt.getD "")
                match stripInlineComment captured.1 with
                | none => .error .panic
                | some valueStr => do
                  let parsedValue ←
                    if (rustTrim valueStr).isEmpty then pure (none : Option TycoValue)
                    else
                      match st.ctx.getStruct sn with
                      | none => .error (.unknownStruct sn)
                      | some schema =>
                        match schema.fields.find? (fun f => f.name = fieldName) with
                        | none => .error (.parse ("Unknown field " ++ fieldName))
                        | some fs => do
                          let v ← parseValue st.ctx vfuel valueStr (fieldTypeName fs)
                          pure (some v)
                  match st.ctx.getStruct sn with
                  | none => .error (.unknownStruct sn)
                  | some sd => do
                    let sd2 ← sd.setDefault fieldName parsedValue
                    parseLinesLoop vfuel lines fuel (captured.2 + 1)
                      ⟨st.ctx.putStruct sn sd2, st.state, st.currentStruct, st.instanceLines⟩
              | _, _ =>
                if trimmedWs.data.head? = some '-' then
                  match st.currentStruct with
                  | none =>
                    .error (.parse "Instance data encountered outside of a struct block")
                  | some _ => do
                    let instLine0 := rustTrim (String.mk (trimmedWs.data.dropWhile (· = '-')))
                    let joined ← joinBackslash lines (lines.length + 1) idx instLine0
                    let captured := captureMultiline lines joined.2 joined.1
                    parseLinesLoop vfuel lines fuel (captured.2 + 1)
                      ⟨st.ctx, .inStructInstances, st.currentStruct,
                        st.instanceLines ++ [captured.1]⟩
                else if st.state = .inStructInstances &&
                    (line.data.head?.map (fun c => rustIsWhitespace c)).getD false then
                  parseLinesLoop vfuel lines fuel (idx + 1)
                    ⟨st.ctx, st.state, st.currentStruct, appendToLast st.instanceLines trimmedWs⟩
                else
                  parseLinesLoop vfuel lines fuel (idx + 1) st

/-- `parser.rs::TycoParser` (the per-call include-tracking set; `parse_str`
and everything below it never read it). -/
structure TycoParser where
  included : List String

/-- `parser.rs::TycoParser::new`. -/
def TycoParser.new : TycoParser := ⟨[]⟩

/-- `parser.rs::TycoParser::parse_str`: enumerate the content's lines and
run `parse_lines` from the initial state.  `vfuel` bounds the recursive
value/pass walks of the model. -/
def TycoParser.parseStr (_p : TycoParser) (vfuel : Nat) (content : String) :
    Except RErr TycoContext :=
  let lines := rustLines content
  parseLinesLoop vfuel lines (lines.length + 1) 0 ⟨TycoContext.new, .topLevel, none, []⟩

/-- `parser.rs::loads`: parse with a freshly constructed parser. -/
def loads (vfuel : Nat) (content : String) : Except RErr TycoContext :=
  TycoParser.new.parseStr vfuel content

section MapLemmas

theorem imGet_imInsert_self {α : Type} (m : List (String × α)) (k : String) (v : α) :
    imGet (imInsert m k v) k = some v := by
  induction m with
  | nil => simp [imInsert, imGet]
  | cons p rest ih =>
    obtain ⟨k0, v0⟩ := p
    by_cases h : k0 = k
    · simp [imInsert, h, imGet]
    · simp [imInsert, h, imGet] at ih ⊢
      exact ih

theorem imGet_imInsert_ne {α : Type} (m : List (String × α)) (k s : String) (v : α)
    (h : s ≠ k) : imGet (imInsert m k v) s = imGet m s := by
  induction m with
  | nil => simp [imInsert, imGet, List.find?, Ne.symm h]
  | cons p rest ih =>
    obtain ⟨k0, v0⟩ := p
    by_cases hk : k0 = k
    · subst hk
      simp [imInsert, imGet, List.find?, Ne.symm h]
    · by_cases hs : k0 = s
      · simp [imInsert, hk, imGet, List.find?, hs, h]
      · simp [imInsert, hk, imGet, List.find?, hs] at ih ⊢
        exact ih

theorem imGet_imRemove_ne {α : Type} (m : List (String × α)) (k s : String)
    (h : s ≠ k) : imGet (imRemove m k) s = imGet m s := by
  induction m with
  | nil => simp [imRemove, imGet]
  | cons p rest ih =>
    obtain ⟨k0, v0⟩ := p
    by_cases hk : k0 = k
    · subst hk
      simp [imRemove, imGet, List.find?, Ne.symm h] at ih ⊢
      exact ih
    · by_cases hs : k0 = s
      · simp [imRemove, imGet, List.find?, hk, hs, h]
      · simp [imRemove, imGet, List.find?, hk, hs] at ih ⊢
        exact ih

theorem getAttribute_setAttribute_self (i : TycoInstance) (k : String) (v : TycoValue) :
    (i.setAttribute k v).getAttribute k = some v := by
  obtain ⟨sn, fields, order⟩ := i
  simp [TycoInstance.setAttribute, TycoInstance.getAttribute]
  split <;> exact imGet_imInsert_self ..

theorem getAttribute_setAttribute_ne (i : TycoInstance) (k s : String) (v : TycoValue)
    (h : s ≠ k) : (i.setAttribute k v).getAttribute s = i.getAttribute s := by
  obtain ⟨sn, fields, order⟩ := i
  simp [TycoInstance.setAttribute, TycoInstance.getAttribute]
  split <;> exact imGet_imInsert_ne _ _ _ _ h

theorem getAttribute_removeAttribute_ne (i : TycoInstance) (k s : String)
    (h : s ≠ k) : (i.removeAttribute k).getAttribute s = i.getAttribute s := by
  obtain ⟨sn, fields, order⟩ := i
  simp [TycoInstance.removeAttribute, TycoInstance.getAttribute]
  exact imGet_imRemove_ne _ _ _ h

theorem getAttribute_setValueAt_ne (i : TycoInstance) (k s : String) (v : TycoValue)
    (h : s ≠ k) : (i.setValueAt k v).getAttribute s = i.getAttribute s := by
  obtain ⟨sn, fields, order⟩ := i
  simp only [TycoInstance.setValueAt]
  split
  · simp [TycoInstance.getAttribute]
    exact imGet_imInsert_ne _ _ _ _ h
  · rfl

theorem getAttribute_enforceOrder (i : TycoInstance) (schema : List FieldSchema) (s : String) :
    (i.enforceOrderFromSchema schema).getAttribute s = i.getAttribute s := by
  obtain ⟨sn, fields, order⟩ := i
  rfl

end MapLemmas

/-- C8: parsing is deterministic.  In the pure embedding a parse is a
function of the input text alone; the substantive content is that the result
is independent of the parser value it is invoked on (the per-call `included`
set is never read by `parse_str`/`parse_lines`), so a fresh parser and any
other parser produce the same resolved document and hence the same projected
JSON tree as `loads`. -/
theorem c8_parse_determinism (vfuel : Nat) (p q : TycoParser) (content : String) :
    p.parseStr vfuel content = q.parseStr vfuel content ∧
      (p.parseStr vfuel content).map (TycoContext.toJson vfuel) =
        (loads vfuel content).map (TycoContext.toJson vfuel) :=
  ⟨rfl, rfl⟩

/-- Line on which `strip_inline_comment` panics: a 4-byte emoji followed by
a double-quoted letter; closing the quote evaluates `line[..3]`, and byte 3
is inside the emoji. -/
def c9FailingLine : String := String.mk [Char.ofNat 0x1F600, dq, 'a', dq]

/-- C9: comment stripping is not total.  On `c9FailingLine` the
char-enumeration index `3` of the closing quote is byte-sliced into the
line, which is not a character boundary: the Rust code panics (modelled as
`none`).  The ASCII analogue of the same line is handled fine. -/
theorem c9_strip_inline_comment_panics :
    stripInlineComment c9FailingLine = none ∧
      stripInlineComment (String.mk ['a', dq, 'a', dq]) = some (String.mk ['a', dq, 'a', dq]) := by
  exact ⟨rfl, rfl⟩

/-- C10: during coercion, a string stored in a non-array `bool` field
becomes `Bool(true)` exactly when its text is `true` or `True`, every other
text becomes `Bool(false)`, and string-to-bool coercion never errors. -/
theorem c10_string_bool_coercion (s : TycoString) (schema : FieldSchema)
    (h1 : schema.is_array = false) (h2 : schema.type_name = "bool") :
    coerceValue (.str s) schema = .ok (.bool (s.value == "true" || s.value == "True")) := by
  simp [coerceValue, h1, h2]

/-- Witness for C10: the text `yes` (and so e.g. `TRUE`, `1`) silently
coerces to `false`. -/
theorem c10_string_bool_coercion_witness :
    coerceValue (.str (.mk "yes" false false)) ⟨"flag", "bool", false, false, false, none⟩
      = .ok (.bool false) := by
  have h := c10_string_bool_coercion (.mk "yes" false false)
    ⟨"flag", "bool", false, false, false, none⟩ rfl rfl
  rw [h]
  rfl

/-- Globals for the C5 counterexample: a global `x` with text `glob`. -/
def c5Ctx : TycoContext := ⟨[("x", .str (.mk "glob" false false))], []⟩

/-- Enclosing instance for the C5 counterexample: its own field named
`global` is an inline instance carrying `x = "inst"`. -/
def c5Inst : TycoInstance :=
  .mk "A" [("global", .inst (.mk "B" [("x", .str (.mk "inst" false false))] ["x"]))] ["global"]

/-- Counterexample to C5: inside an instance that itself has a field named
`global`, the placeholder path `global.x` resolves through the instance
field (text `inst`), not through the global `x` (text `glob`) - the
`global.` segment does not force the global scope. -/
theorem c5_counterexample :
    resolvePlaceholder "global.x" c5Ctx (some c5Inst) = some "inst" ∧
      resolveFromGlobals c5Ctx ((splitDot "global.x").drop 1)
        = some (.str (.mk "glob" false false)) ∧
      ("inst" : String) ≠ "glob" := by
  refine ⟨rfl, rfl, by decide⟩

/-- C5 as amended: resolution always tries the enclosing instance's scope
first, even for a `global.`-prefixed path; only when instance-scope
resolution fails does a leading `global.` segment (with at least one
further segment) redirect the remainder of the path to the globals; and
without that redirect a failed instance lookup falls back to the full path
against the globals. -/
theorem c5_global_scope_fallback (ph : String) (ctx : TycoContext) (i : TycoInstance) :
    (∀ v, resolveFromInstance i (splitDot ph) = some v →
      resolvePlaceholder ph ctx (some i) = some v.toTemplateText)
    ∧ (∀ rest v, resolveFromInstance i (splitDot ph) = none →
        splitDot ph = "global" :: rest → rest ≠ [] →
        resolveFromGlobals ctx rest = some v →
        resolvePlaceholder ph ctx (some i) = some v.toTemplateText)
    ∧ (resolveFromInstance i (splitDot ph) = none →
        (splitDot ph).head? ≠ some "global" →
        resolvePlaceholder ph ctx (some i)
          = (resolveFromGlobals ctx (splitDot ph)).map TycoValue.toTemplateText) := by
  refine ⟨?_, ?_, ?_⟩
  · intro v h
    simp [resolvePlaceholder, h]
  · intro rest v h1 h2 h3 h4
    have hlen : (splitDot ph).length > 1 := by
      rw [h2]
      simp [List.length_cons]
      exact List.length_pos.mpr h3
    simp [resolvePlaceholder, h1, h2, hlen, h4] at *
    simp [resolvePlaceholder, h1, h2]
    have : rest.length > 0 := List.length_pos.mpr h3
    simp [this, h4]
  · intro h1 h5
    simp [resolvePlaceholder, h1, h5]

/-- Witness for C5 as amended: a plain sibling-field path resolves through
the instance scope. -/
theorem c5_global_scope_fallback_witness :
    resolvePlaceholder "x" TycoContext.new
      (some (.mk "A" [("x", .str (.mk "Ada" false false))] ["x"])) = some "Ada" := by
  exact (c5_global_scope_fallback "x" TycoContext.new
    (.mk "A" [("x", .str (.mk "Ada" false false))] ["x"])).1 (.str (.mk "Ada" false false)) rfl

section RenderScanLemmas

theorem renderScan_append_outside (r : String → Option String) (pre rest : List Char)
    (hpre : lbrace ∉ pre) :
    renderScan r (pre ++ rest) none = pre ++ renderScan r rest none := by
  induction pre with
  | nil => rfl
  | cons c pre ih =>
    have hc : ¬c = lbrace := fun h => hpre (h ▸ List.mem_cons_self c pre)
    have hrest : lbrace ∉ pre := fun h => hpre (List.mem_cons_of_mem c h)
    simp [renderScan, hc, ih hrest]

theorem renderScan_collecting (r : String → Option String) (p : List Char)
    (hp : rbrace ∉ p) : ∀ (acc suf : List Char),
    renderScan r (p ++ rbrace :: suf) (some acc)
      = renderEmit r (acc ++ p) ++ renderScan r suf none := by
  induction p with
  | nil => intro acc suf; simp [renderScan]
  | cons c p ih =>
    intro acc suf
    have hc : ¬c = rbrace := fun h => hp (h ▸ List.mem_cons_self c p)
    have hrest : rbrace ∉ p := fun h => hp (List.mem_cons_of_mem c h)
    have h2 := ih hrest (acc ++ [c]) suf
    simp [renderScan, hc]
    simpa using h2

end RenderScanLemmas

/-- Context for the C6 rendering examples (no globals). -/
def c6Ctx : TycoContext := TycoContext.new

/-- Enclosing instance for the C6 rendering examples: sibling field
`name = "Ada"`. -/
def c6Inst : TycoInstance := .mk "G" [("name", .str (.mk "Ada" false false))] ["name"]

/-- C6: in the render scan of a template-eligible, non-literal string, a
placeholder whose path resolves is replaced by the resolved display text,
and one whose path resolves to nothing is left verbatim, braces included;
concretely, `"Hello {name}!"` next to sibling `name = "Ada"` renders to
`"Hello Ada!"` and `{nope}` stays `{nope}` through the full
`TycoString::render` (substitution plus the final unescape). -/
theorem c6_placeholder_substitution (ctx : TycoContext) (cur : Option TycoInstance)
    (pre p suf : List Char) (hpre : lbrace ∉ pre) (hp : rbrace ∉ p) :
    (∀ t, resolvePlaceholder (String.mk p) ctx cur = some t →
      renderScan (fun q => resolvePlaceholder q ctx cur)
          (pre ++ lbrace :: (p ++ rbrace :: suf)) none
        = pre ++ (t.data ++ renderScan (fun q => resolvePlaceholder q ctx cur) suf none))
    ∧ (resolvePlaceholder (String.mk p) ctx cur = none →
      renderScan (fun q => resolvePlaceholder q ctx cur)
          (pre ++ lbrace :: (p ++ rbrace :: suf)) none
        = pre ++ (lbrace :: (p ++ rbrace ::
            renderScan (fun q => resolvePlaceholder q ctx cur) suf none)))
    ∧ (TycoString.render (.mk "Hello \x7bname\x7d!" true false) c6Ctx (some c6Inst)).value
        = "Hello Ada!"
    ∧ (TycoString.render (.mk "X\x7bnope\x7dY" true false) c6Ctx (some c6Inst)).value
        = "X\x7bnope\x7dY" := by
  refine ⟨?_, ?_, rfl, rfl⟩
  · intro t ht
    rw [renderScan_append_outside _ _ _ hpre]
    have h1 : renderScan (fun q => resolvePlaceholder q ctx cur)
        (lbrace :: (p ++ rbrace :: suf)) none
        = renderScan (fun q => resolvePlaceholder q ctx cur) (p ++ rbrace :: suf) (some []) := by
      simp [renderScan]
    rw [h1, renderScan_collecting _ _ hp]
    simp [renderEmit, ht]
  · intro ht
    rw [renderScan_append_outside _ _ _ hpre]
    have h1 : renderScan (fun q => resolvePlaceholder q ctx cur)
        (lbrace :: (p ++ rbrace :: suf)) none
        = renderScan (fun q => resolvePlaceholder q ctx cur) (p ++ rbrace :: suf) (some []) := by
      simp [renderScan]
    rw [h1, renderScan_collecting _ _ hp]
    simp [renderEmit, ht]

/-- Witness for C6: substituting the resolved placeholder `{name}` in a
one-letter context. -/
theorem c6_placeholder_substitution_witness :
    renderScan (fun q => resolvePlaceholder q c6Ctx (some c6Inst))
        (['A'] ++ lbrace :: ("name".data ++ rbrace :: ['B'])) none = "AAdaB".data := by
  have h := (c6_placeholder_substitution c6Ctx (some c6Inst) ['A'] "name".data ['B']
    (by decide) (by decide)).1 "Ada" rfl
  rw [h]
  rfl

section RenderKeysLemmas

theorem renderKeysWith_append (rt : TycoInstance → TycoValue → TycoValue)
    (a b : List String) : ∀ i : TycoInstance,
    renderKeysWith rt (a ++ b) i i
      = renderKeysWith rt b (renderKeysWith rt a i i) (renderKeysWith rt a i i) := by
  induction a with
  | nil => intro i; rfl
  | cons key rest ih =>
    intro i
    simp only [List.cons_append, renderKeysWith]
    exact ih _

theorem renderKeysWith_getAttribute_not_mem (rt : TycoInstance → TycoValue → TycoValue)
    (ks : List String) : ∀ (i snap : TycoInstance) (s : String), s ∉ ks →
    (renderKeysWith rt ks i snap).getAttribute s = i.getAttribute s := by
  induction ks with
  | nil => intro i snap s _; rfl
  | cons key rest ih =>
    intro i snap s hs
    have hk : s ≠ key := fun h => hs (h ▸ List.mem_cons_self key rest)
    have hrest : s ∉ rest := fun h => hs (List.mem_cons_of_mem key h)
    simp only [renderKeysWith]
    rw [ih _ _ _ hrest]
    cases hgk : i.getAttribute key with
    | none => simp [hgk]
    | some v =>
      simp [hgk]
      exact getAttribute_setValueAt_ne _ _ _ _ hk

end RenderKeysLemmas

/-- C2: fields of one instance are rendered in `field_order`; splitting the
pass at position `k`, the whole pass equals rendering the first `k` fields
and then the rest against the resulting snapshot - so the snapshot seen
while rendering field `k` holds, for every not-yet-processed sibling,
exactly its pre-pass (raw) value (second conjunct: never a half-substituted
intermediate), and for every already-processed sibling its fully rendered
value, which is also its final value in the pass (third conjunct).  `rt` is
the per-value renderer receiving the snapshot (the code's
`value.render_templates(ctx, Some(&snapshot_instance))`). -/
theorem c2_render_template_field_order (rt : TycoInstance → TycoValue → TycoValue)
    (keys : List String) (i0 : TycoInstance) (k : Nat) (hnd : keys.Nodup) :
    renderKeysWith rt keys i0 i0
      = renderKeysWith rt (keys.drop k) (renderKeysWith rt (keys.take k) i0 i0)
          (renderKeysWith rt (keys.take k) i0 i0)
    ∧ (∀ s, s ∉ keys.take k →
        (renderKeysWith rt (keys.take k) i0 i0).getAttribute s = i0.getAttribute s)
    ∧ (∀ s, s ∈ keys.take k →
        (renderKeysWith rt keys i0 i0).getAttribute s
          = (renderKeysWith rt (keys.take k) i0 i0).getAttribute s) := by
  have happ := renderKeysWith_append rt (keys.take k) (keys.drop k)
  rw [List.take_append_drop] at happ
  refine ⟨happ i0, ?_, ?_⟩
  · intro s hs
    exact renderKeysWith_getAttribute_not_mem rt _ _ _ _ hs
  · intro s hs
    rw [happ i0]
    apply renderKeysWith_getAttribute_not_mem
    have hnd2 : (keys.take k ++ keys.drop k).Nodup := by
      rw [List.take_append_drop]; exact hnd
    exact fun hmem => (List.nodup_append.mp hnd2).2.2 hs hmem

/-- Two-field instance for the C2 witness. -/
def c2WInst : TycoInstance :=
  .mk "W" [("a", .str (.mk "ra" false false)), ("b", .str (.mk "rb" false false))] ["a", "b"]

/-- Witness for C2: while field `b` (position 1) is being rendered, the
snapshot still holds field `b`'s raw pre-pass value. -/
theorem c2_render_template_field_order_witness :
    (["a", "b"] : List String).Nodup ∧
      (renderKeysWith (fun _ v => v) (["a", "b"].take 1) c2WInst c2WInst).getAttribute "b"
        = c2WInst.getAttribute "b" :=
  ⟨by decide,
    (c2_render_template_field_order (fun _ v => v) ["a", "b"] c2WInst 1 (by decide)).2.1
      "b" (by decide)⟩

/-- Document that declares struct `A` twice: first with field `x`, then
with field `y`. -/
def c3Doc : String := "A:\n  int x:\nA:\n  int y:"

/-- Field names of struct `A` after parsing `c3Doc`. -/
def c3FieldNames : Option (List String) :=
  match loads 32 c3Doc with
  | .ok ctx => (ctx.getStruct "A").map (fun sd => sd.fields.map (fun f => f.name))
  | .error _ => none

/-- Counterexample to C3: after parsing a document that declares `A` twice,
`A`'s schema is `[x, y]` - the prior field survives - not `[y]` (the second
declaration's fields alone), so re-declaring does not replace the schema
wholesale. -/
theorem c3_counterexample :
    c3FieldNames = some ["x", "y"] ∧ c3FieldNames ≠ some ["y"] :=
  ⟨rfl, by rw [show c3FieldNames = some ["x", "y"] from rfl]; decide⟩

/-- C3 as amended: a struct header naming an already-declared struct
re-opens it - the header leaves the stored schema (fields, defaults,
instances) untouched, and each subsequent field declaration appends its
field after the prior schema's fields. -/
theorem c3_struct_redeclaration_reopens (ctx : TycoContext) (name : String)
    (st : TycoStruct) (h : ctx.getStruct name = some st) :
    processStructHeader ctx name = ctx
    ∧ ∀ fld : FieldSchema,
        addFieldToStruct ctx name fld = .ok (ctx.putStruct name (st.addField fld))
        ∧ (st.addField fld).fields = st.fields ++ [fld]
        ∧ (ctx.putStruct name (st.addField fld)).getStruct name = some (st.addField fld) := by
  constructor
  · simp [processStructHeader, h]
  · intro fld
    refine ⟨?_, rfl, ?_⟩
    · simp [addFieldToStruct, h]
    · simp only [TycoContext.putStruct, TycoContext.getStruct]
      exact imGet_imInsert_self ..

/-- Context with an already-declared empty struct `A` for the C3 witness. -/
def c3WCtx : TycoContext := TycoContext.new.addStruct (TycoStruct.new "A")

/-- Field `y` appended by the second declaration block in the C3 witness. -/
def c3WFld : FieldSchema := ⟨"y", "int", false, false, false, none⟩

/-- Witness for C3 as amended: re-opening `A` keeps the context unchanged
and a subsequent field declaration appends to the existing schema. -/
theorem c3_struct_redeclaration_reopens_witness :
    processStructHeader c3WCtx "A" = c3WCtx ∧
      addFieldToStruct c3WCtx "A" c3WFld
        = .ok (c3WCtx.putStruct "A" ((TycoStruct.new "A").addField c3WFld)) :=
  have h := c3_struct_redeclaration_reopens c3WCtx "A" (TycoStruct.new "A") rfl
  ⟨h.1, (h.2 c3WFld).1⟩

/-- An argument token that scans as a `name: value` pair. -/
def partNamed (p : String) : Prop :=
  ∃ nv, splitNamedArgument (rustTrim p) = some (some nv)

/-- A nonempty argument token that scans as positional. -/
def partPositional (p : String) : Prop :=
  splitNamedArgument (rustTrim p) = some none ∧ (rustTrim p).isEmpty = false

/-- A buffered instance line whose top-level comma split has a positional
token somewhere after a named token. -/
def mixedLine (line : String) : Prop :=
  ∃ l1 pn l2, splitTopLevel line ',' = l1 ++ pn :: l2 ∧ partNamed pn ∧
    ∃ pp ∈ l2, partPositional pp

theorem partNamed_not_empty {p : String} (h : partNamed p) : (rustTrim p).isEmpty = false := by
  obtain ⟨nv, h⟩ := h
  cases hq : rustTrim p with
  | mk dataList =>
    rw [hq] at h
    cases dataList with
    | nil =>
      have h0 : splitNamedArgument { data := [] } = some none := rfl
      rw [h0] at h
      exact Option.noConfusion (Option.some.inj h)
    | cons c rest =>
      simp [String.isEmpty, String.endPos, String.Pos.ext_iff, String.utf8ByteSize,
        String.utf8ByteSize.go]
      intro _
      have := Char.utf8Size_pos c
      omega

section C4Lemmas

variable (ctx : TycoContext) (vfuel : Nat) (sn : String) (fields : List FieldSchema)

theorem processParts_after_named_no_ok :
    ∀ (parts : List String) (i0 : TycoInstance) (n0 : Nat),
      (∃ pp ∈ parts, partPositional pp) →
      ∀ out, processParts ctx vfuel sn fields parts i0 n0 true ≠ .ok out := by
  intro parts
  induction parts with
  | nil => rintro i0 n0 ⟨pp, hpp, _⟩ out; exact absurd hpp (List.not_mem_nil pp)
  | cons part0 rest ih =>
    rintro i0 n0 ⟨pp, hmem, hpos⟩ out hok
    by_cases he : (rustTrim part0).isEmpty
    · simp only [processParts, he, if_true] at hok
      rcases List.mem_cons.mp hmem with hq | hq
      · rw [hq] at hpos; rw [hpos.2] at he; exact Bool.noConfusion he
      · exact ih i0 n0 ⟨pp, hq, hpos⟩ out hok
    · cases hsna : splitNamedArgument (rustTrim part0) with
      | none => simp [processParts, he, hsna] at hok
      | some o =>
        cases o with
        | none => simp [processParts, he, hsna] at hok
        | some nv =>
          obtain ⟨fieldName, value⟩ := nv
          simp only [processParts, he, if_false, Bool.false_eq_true, hsna] at hok
          cases hf : fields.find? (fun f => f.name = fieldName) with
          | none => simp only [hf] at hok; exact Except.noConfusion hok
          | some schema =>
            simp only [hf] at hok
            cases hpv : parseValue ctx vfuel (rustTrim value) (fieldTypeName schema) with
            | error e => rw [hpv] at hok; exact Except.noConfusion hok
            | ok tv =>
              rw [hpv] at hok
              have hne : pp ∈ rest := by
                rcases List.mem_cons.mp hmem with hq | hq
                · rw [hq] at hpos; rw [hpos.1] at hsna; exact absurd hsna (by simp)
                · exact hq
              exact ih _ n0 ⟨pp, hne, hpos⟩ out hok

theorem processParts_mixed_no_ok :
    ∀ (l1 : List String) (pn : String) (l2 : List String) (i0 : TycoInstance) (n0 : Nat),
      partNamed pn → (∃ pp ∈ l2, partPositional pp) →
      ∀ out, processParts ctx vfuel sn fields (l1 ++ pn :: l2) i0 n0 false ≠ .ok out := by
  intro l1
  induction l1 with
  | nil =>
    intro pn l2 i0 n0 hn hp out hok
    obtain ⟨nv, hsna⟩ := hn
    obtain ⟨fieldName, value⟩ := nv
    have he := partNamed_not_empty ⟨_, hsna⟩
    simp only [List.nil_append, processParts, he, if_false, Bool.false_eq_true, hsna] at hok
    cases hf : fields.find? (fun f => f.name = fieldName) with
    | none => simp only [hf] at hok; exact Except.noConfusion hok
    | some schema =>
      simp only [hf] at hok
      cases hpv : parseValue ctx vfuel (rustTrim value) (fieldTypeName schema) with
      | error e => rw [hpv] at hok; exact Except.noConfusion hok
      | ok tv =>
        rw [hpv] at hok
        exact processParts_after_named_no_ok ctx vfuel sn fields l2 _ n0 hp out hok
  | cons h1 t ih =>
    intro pn l2 i0 n0 hn hp out hok
    by_cases he : (rustTrim h1).isEmpty
    · simp only [List.cons_append, processParts, he, if_true] at hok
      exact ih pn l2 i0 n0 hn hp out hok
    · cases hsna : splitNamedArgument (rustTrim h1) with
      | none => simp [processParts, he, hsna] at hok
      | some o =>
        cases o with
        | none =>
          simp only [List.cons_append, processParts, he, if_false, Bool.false_eq_true,
            hsna] at hok
          cases hf : fields.get? n0 with
          | none => simp only [hf] at hok; exact Except.noConfusion hok
          | some schema =>
            simp only [hf] at hok
            cases hpv : parseValue ctx vfuel (rustTrim h1) (fieldTypeName schema) with
            | error e => rw [hpv] at hok; exact Except.noConfusion hok
            | ok tv =>
              rw [hpv] at hok
              exact ih pn l2 _ (n0 + 1) hn hp out hok
        | some nv =>
          obtain ⟨fieldName, value⟩ := nv
          simp only [List.cons_append, processParts, he, if_false, Bool.false_eq_true,
            hsna] at hok
          cases hf : fields.find? (fun f => f.name = fieldName) with
          | none => simp only [hf] at hok; exact Except.noConfusion hok
          | some schema =>
            simp only [hf] at hok
            cases hpv : parseValue ctx vfuel (rustTrim value) (fieldTypeName schema) with
            | error e => rw [hpv] at hok; exact Except.noConfusion hok
            | ok tv =>
              rw [hpv] at hok
              have hp2 : ∃ pp ∈ t ++ pn :: l2, partPositional pp := by
                obtain ⟨pp, hpm, hppos⟩ := hp
                exact ⟨pp, List.mem_append_right t (List.mem_cons_of_mem pn hpm), hppos⟩
              exact processParts_after_named_no_ok ctx vfuel sn fields _ _ n0 hp2 out hok

theorem psiLines_mixed_no_ok :
    ∀ (instLines : List String) (ctx2 : TycoContext),
      (∃ line ∈ instLines, mixedLine line) →
      ∀ out, psiLines vfuel sn fields instLines ctx2 ≠ .ok out := by
  intro instLines
  induction instLines with
  | nil => rintro ctx2 ⟨l, hl, _⟩ out; exact absurd hl (List.not_mem_nil l)
  | cons line rest ih =>
    rintro ctx2 ⟨l, hl, hmix⟩ out hok
    simp only [psiLines] at hok
    cases hpp : processParts ctx2 vfuel sn fields (splitTopLevel line ',')
        (TycoInstance.mk sn [] []) 0 false with
    | error e => rw [hpp] at hok; exact Except.noConfusion hok
    | ok inst1 =>
      rcases List.mem_cons.mp hl with hq | hq
      · subst hq
        obtain ⟨l1, pn, l2, hsplit, hn, hp⟩ := hmix
        rw [hsplit] at hpp
        exact processParts_mixed_no_ok ctx2 vfuel sn fields l1 pn l2 _ 0 hn hp _ hpp
      · rw [hpp] at hok
        cases hg : ctx2.getStruct sn with
        | none => rw [hg] at hok; exact Except.noConfusion hok
        | some sd =>
          rw [hg] at hok
          exact ih _ ⟨l, hq, hmix⟩ out hok

end C4Lemmas

/-- The spec's mixed argument list `name: "a", "b"`. -/
def c4Args : String := "name: \"a\", \"b\""

/-- What the inline-instance path actually produces for `c4Args`. -/
def c4ExpectedInst : TycoInstance :=
  .mk "P" [("name", .str (.mk "a" false false)), ("_arg0", .str (.mk "b" false false))]
    ["name", "_arg0"]

/-- Counterexample to C4: in an inline struct-call instance value, a
positional argument after a named argument is accepted - the call returns
the instance with the positional value under the synthetic `_arg0` name,
and no Parse error is raised. -/
theorem c4_counterexample :
    parseInlineInstance "P" c4Args = .ok c4ExpectedInst ∧
      ∀ e, parseInlineInstance "P" c4Args ≠ .error e := by
  refine ⟨rfl, fun e h => ?_⟩
  rw [show parseInlineInstance "P" c4Args = .ok c4ExpectedInst from rfl] at h
  exact Except.noConfusion h

/-- C4 as amended: in a top-level instance bullet line, a positional
argument after a named argument makes the whole `parse_struct_instances`
call fail (first conjunct), the violating token itself producing exactly the
Parse mixing error (second conjunct); the inline struct-call instance path,
by contrast, has no such check and accepts a positional token after a named
one, storing it under a synthetic `_argN` name (third conjunct). -/
theorem c4_positional_after_named (vfuel : Nat) :
    (∀ (structName : String) (instanceLines : List String) (ctx : TycoContext)
        (line : String), line ∈ instanceLines → mixedLine line →
        ∀ out, parseStructInstances vfuel structName instanceLines ctx ≠ .ok out)
    ∧ (∀ (ctx : TycoContext) (structName : String) (fields : List FieldSchema)
        (pp : String) (rest : List String) (i0 : TycoInstance) (n0 : Nat),
        partPositional pp →
        processParts ctx vfuel structName fields (pp :: rest) i0 n0 true
          = .error (.parse "Positional arguments cannot follow named arguments"))
    ∧ (∀ (p1 p2 nm vl : String) (s1 s2 : TycoString) (i0 : TycoInstance) (pos : Nat),
        splitNamedArgument p1 = some (some (nm, vl)) →
        splitNamedArgument p2 = some none →
        parseStringValue (rustTrim vl) = .ok s1 →
        parseStringValue (rustTrim p2) = .ok s2 →
        inlineParts [p1, p2] i0 pos
          = .ok ((i0.setAttribute nm (.str s1)).setAttribute
              ("_arg" ++ toString pos) (.str s2))) := by
  refine ⟨?_, ?_, ?_⟩
  · intro structName instanceLines ctx line hline hmix out hok
    cases instanceLines with
    | nil => exact absurd hline (List.not_mem_nil line)
    | cons l0 ls =>
      simp only [parseStructInstances, List.isEmpty_cons] at hok
      cases hg : ctx.getStruct structName with
      | none => rw [hg] at hok; exact Except.noConfusion hok
      | some sd =>
        rw [hg] at hok
        exact psiLines_mixed_no_ok vfuel structName sd.fields (l0 :: ls) ctx
          ⟨line, hline, hmix⟩ out hok
  · intro ctx structName fields pp rest i0 n0 hpos
    simp [processParts, hpos.1, hpos.2]
  · intro p1 p2 nm vl s1 s2 i0 pos h1 h2 h3 h4
    simp [inlineParts, h1, h2, h3, h4]
    rfl

/-- Witness for C4 as amended: with a named argument already seen, the
positional token `"b"` fails with the mixing Parse error. -/
theorem c4_positional_after_named_witness :
    partPositional "\"b\"" ∧
      processParts TycoContext.new 8 "P" [] ["\"b\""] (TycoInstance.mk "P" [] []) 0 true
        = .error (.parse "Positional arguments cannot follow named arguments") :=
  ⟨⟨rfl, rfl⟩,
    (c4_positional_after_named 8).2.1 TycoContext.new "P" [] "\"b\"" [] _ 0 ⟨rfl, rfl⟩⟩

section C7Lemmas

theorem coerceFields_preserves_other :
    ∀ (fs : List FieldSchema) (i j : TycoInstance) (nm : String),
      coerceFields fs i = .ok j → (∀ g ∈ fs, g.name ≠ nm) →
      j.getAttribute nm = i.getAttribute nm := by
  intro fs
  induction fs with
  | nil =>
    intro i j nm hok _
    simp only [coerceFields] at hok
    cases hok
    rfl
  | cons g rest ih =>
    intro i j nm hok hne
    have hgnm : g.name ≠ nm := hne g (List.mem_cons_self g rest)
    have hrest : ∀ g2 ∈ rest, g2.name ≠ nm := fun g2 h2 => hne g2 (List.mem_cons_of_mem g h2)
    simp only [coerceFields] at hok
    cases hga : i.getAttribute g.name with
    | some value =>
      simp only [hga] at hok
      cases hcv : coerceValue value g with
      | error e => rw [hcv] at hok; exact Except.noConfusion hok
      | ok c =>
        rw [hcv] at hok
        have h2 := ih _ _ nm hok hrest
        rw [h2, getAttribute_setAttribute_ne _ _ _ _ (Ne.symm hgnm),
          getAttribute_removeAttribute_ne _ _ _ (Ne.symm hgnm)]
    | none =>
      simp only [hga] at hok
      cases hd : g.default_value with
      | some d =>
        simp only [hd] at hok
        have h2 := ih _ _ nm hok hrest
        rw [h2, getAttribute_setAttribute_ne _ _ _ _ (Ne.symm hgnm)]
      | none =>
        simp only [hd] at hok
        exact ih _ _ nm hok hrest

theorem coerceFields_int_field :
    ∀ (fs : List FieldSchema) (i j : TycoInstance) (f : FieldSchema) (d : Int),
      coerceFields fs i = .ok j → f ∈ fs →
      (fs.filter (fun g => g.name = f.name)).length = 1 →
      f.type_name = "int" → f.is_array = false → f.default_value = some (.int d) →
      (i.getAttribute f.name = none → j.getAttribute f.name = some (.int d))
      ∧ (∀ m : Int, i.getAttribute f.name = some (.int m) →
          j.getAttribute f.name = some (.int m)) := by
  intro fs
  induction fs with
  | nil => intro i j f d _ hmem; exact absurd hmem (List.not_mem_nil f)
  | cons g rest ih =>
    intro i j f d hok hmem hcount htype harr hdef
    by_cases hn : g.name = f.name
    · have hfg : f = g := by
        rcases List.mem_cons.mp hmem with h | h
        · exact h
        · exfalso
          have h1 : (g :: rest).filter (fun x => decide (x.name = f.name))
              = g :: rest.filter (fun x => decide (x.name = f.name)) :=
            List.filter_cons_of_pos (by simp [hn])
          have h2 : f ∈ rest.filter (fun x => decide (x.name = f.name)) :=
            List.mem_filter.mpr ⟨h, by simp⟩
          rw [h1] at hcount
          simp only [List.length_cons] at hcount
          have h3 : rest.filter (fun x => decide (x.name = f.name)) = [] :=
            List.eq_nil_of_length_eq_zero (by omega)
          rw [h3] at h2
          exact List.not_mem_nil f h2
      subst hfg
      have hclean : ∀ g2 ∈ rest, g2.name ≠ f.name := by
        intro g2 h2 habs
        have h1 : (f :: rest).filter (fun x => decide (x.name = f.name))
            = f :: rest.filter (fun x => decide (x.name = f.name)) :=
          List.filter_cons_of_pos (by simp)
        have hmem2 : g2 ∈ rest.filter (fun x => decide (x.name = f.name)) :=
          List.mem_filter.mpr ⟨h2, by simp [habs]⟩
        rw [h1] at hcount
        simp only [List.length_cons] at hcount
        have h3 : rest.filter (fun x => decide (x.name = f.name)) = [] :=
          List.eq_nil_of_length_eq_zero (by omega)
        rw [h3] at hmem2
        exact List.not_mem_nil g2 hmem2
      simp only [coerceFields] at hok
      constructor
      · intro hga
        simp only [hga, hdef] at hok
        have h2 := coerceFields_preserves_other rest _ _ f.name hok hclean
        rw [h2, getAttribute_setAttribute_self]
      · intro m hga
        simp only [hga] at hok
        have hcv : coerceValue (.int m) f = .ok (.int m) := by
          simp [coerceValue, harr, htype]
        rw [hcv] at hok
        have h2 := coerceFields_preserves_other rest _ _ f.name hok hclean
        rw [h2, getAttribute_setAttribute_self]
    · have hmem2 : f ∈ rest := by
        rcases List.mem_cons.mp hmem with h | h
        · exact absurd (show g.name = f.name by rw [h]) hn
        · exact h
      have hcount2 : (rest.filter (fun g2 => g2.name = f.name)).length = 1 := by
        have h1 : (g :: rest).filter (fun x => decide (x.name = f.name))
            = rest.filter (fun x => decide (x.name = f.name)) :=
          List.filter_cons_of_neg (by simp [hn])
        rw [h1] at hcount
        exact hcount
      have hne : f.name ≠ g.name := fun hh => hn hh.symm
      simp only [coerceFields] at hok
      cases hga : i.getAttribute g.name with
      | some value =>
        simp only [hga] at hok
        cases hcv : coerceValue value g with
        | error e => rw [hcv] at hok; exact Except.noConfusion hok
        | ok c =>
          rw [hcv] at hok
          have hIH := ih _ _ f d hok hmem2 hcount2 htype harr hdef
          have hpres : ((i.removeAttribute g.name).setAttribute g.name c).getAttribute f.name
              = i.getAttribute f.name := by
            rw [getAttribute_setAttribute_ne _ _ _ _ hne,
              getAttribute_removeAttribute_ne _ _ _ hne]
          rw [hpres] at hIH
          exact hIH
      | none =>
        simp only [hga] at hok
        cases hd : g.default_value with
        | some dv =>
          simp only [hd] at hok
          have hIH := ih _ _ f d hok hmem2 hcount2 htype harr hdef
          have hpres : (i.setAttribute g.name dv).getAttribute f.name
              = i.getAttribute f.name := getAttribute_setAttribute_ne _ _ _ _ hne
          rw [hpres] at hIH
          exact hIH
        | none =>
          simp only [hd] at hok
          exact ih _ _ f d hok hmem2 hcount2 htype harr hdef

theorem exceptMapSnd_imGet {f : TycoValue → Except RErr TycoValue} :
    ∀ (m m' : List (String × TycoValue)), exceptMapSnd f m = .ok m' →
      ∀ (k : String) (v : TycoValue), imGet m k = some v →
        ∃ w, f v = .ok w ∧ imGet m' k = some w := by
  intro m
  induction m with
  | nil => intro m' _ k v hget; simp [imGet] at hget
  | cons p rest ih =>
    obtain ⟨k0, v0⟩ := p
    intro m' hok k v hget
    simp only [exceptMapSnd] at hok
    cases hf0 : f v0 with
    | error e => rw [hf0] at hok; exact Except.noConfusion hok
    | ok w0 =>
      rw [hf0] at hok
      cases hrest : exceptMapSnd f rest with
      | error e => rw [hrest] at hok; exact Except.noConfusion hok
      | ok rest' =>
        rw [hrest] at hok
        have hm' : m' = (k0, w0) :: rest' := by
          have : Except.ok (ε := RErr) ((k0, w0) :: rest') = .ok m' := hok
          exact (Except.ok.inj this).symm
        subst hm'
        by_cases hk : k0 = k
        · subst hk
          have hdk : (decide (k0 = k0)) = true := by simp
          simp only [imGet, List.find?, hdk] at hget ⊢
          cases hget
          exact ⟨w0, hf0, rfl⟩
        · have hdk : (decide (k0 = k)) = false := by simp [hk]
          simp only [imGet, List.find?, hdk] at hget ⊢
          exact ih rest' hrest k v hget

end C7Lemmas

/-- C7: after applying a struct's schema to an instance (the coercion pass's
`apply_schema`, here parameterised by the recursive resolver `rv`), a field
declared with an `int` default (e.g. `count int: 0`) holds the default when
the instance omitted it, and holds the supplied value when the instance
provided one.  Hypotheses: the field occurs once in the schema, the instance
carries no synthetic positional `_argN` names, and `rv` (as `resolve_value`
does) passes `Int` values through unchanged. -/
theorem c7_defaults_and_supplied_values
    (rv : TycoValue → Except RErr TycoValue) (i0 : TycoInstance) (schema : TycoStruct)
    (f : FieldSchema) (d : Int) (out : TycoInstance)
    (hf : f ∈ schema.fields)
    (hcount : (schema.fields.filter (fun g => g.name = f.name)).length = 1)
    (htype : f.type_name = "int") (harr : f.is_array = false)
    (hdef : f.default_value = some (.int d))
    (hnoargs : ∀ key ∈ i0.fieldOrder, argIndexOf key = none)
    (hrv : ∀ m : Int, rv (.int m) = .ok (.int m))
    (hok : applySchemaWith rv i0 schema = .ok out) :
    (i0.getAttribute f.name = none → out.getAttribute f.name = some (.int d))
    ∧ (∀ m : Int, i0.getAttribute f.name = some (.int m) →
        out.getAttribute f.name = some (.int m)) := by
  have hpos : sortByIdx (i0.fieldOrder.filterMap
      (fun key => (argIndexOf key).map (fun idx => (idx, key)))) = [] := by
    have h0 : i0.fieldOrder.filterMap
        (fun key => (argIndexOf key).map (fun idx => (idx, key))) = [] := by
      rw [List.filterMap_eq_nil_iff]
      intro a ha
      rw [hnoargs a ha]
      rfl
    rw [h0]
    rfl
  simp only [applySchemaWith, hpos, rebindLoop, Except.bind, bind] at hok
  cases hcf : coerceFields schema.fields i0 with
  | error e => rw [hcf] at hok; exact Except.noConfusion hok
  | ok i1 =>
    rw [hcf] at hok
    cases hi2 : i1.enforceOrderFromSchema schema.fields with
    | mk sn2 f2 o2 =>
      simp only [hi2] at hok
      cases hms : exceptMapSnd rv f2 with
      | error e => rw [hms] at hok; exact Except.noConfusion hok
      | ok f2p =>
        rw [hms] at hok
        have hout : out = TycoInstance.mk sn2 f2p o2 := (Except.ok.inj hok).symm
        subst hout
        have hcfl := coerceFields_int_field schema.fields i0 i1 f d hcf hf hcount
          htype harr hdef
        have hi2get : imGet f2 f.name = i1.getAttribute f.name := by
          have h3 := getAttribute_enforceOrder i1 schema.fields f.name
          rw [hi2] at h3
          exact h3
        constructor
        · intro hga
          have h5 : imGet f2 f.name = some (.int d) := by rw [hi2get, hcfl.1 hga]
          obtain ⟨w, hw1, hw2⟩ := exceptMapSnd_imGet f2 f2p hms f.name (.int d) h5
          rw [hrv d] at hw1
          have hwd : TycoValue.int d = w := Except.ok.inj hw1
          show imGet f2p f.name = some (.int d)
          rw [hw2, ← hwd]
        · intro m hga
          have h5 : imGet f2 f.name = some (.int m) := by rw [hi2get, hcfl.2 m hga]
          obtain ⟨w, hw1, hw2⟩ := exceptMapSnd_imGet f2 f2p hms f.name (.int m) h5
          rw [hrv m] at hw1
          have hwd : TycoValue.int m = w := Except.ok.inj hw1
          show imGet f2p f.name = some (.int m)
          rw [hw2, ← hwd]

/-- Schema for the C7 witness: struct `C` with the single field
`count int: 0`. -/
def c7WSchema : TycoStruct :=
  ⟨"C", [⟨"count", "int", false, false, false, some (.int 0)⟩], none, [], []⟩

/-- Witness for C7: an instance omitting `count` holds the default `0`
after the schema is applied. -/
theorem c7_defaults_and_supplied_values_witness :
    (TycoInstance.mk "C" [("count", TycoValue.int 0)] ["count"]).getAttribute "count"
      = some (.int 0) :=
  (c7_defaults_and_supplied_values Except.ok (TycoInstance.mk "C" [] []) c7WSchema
    ⟨"count", "int", false, false, false, some (.int 0)⟩ 0
    (TycoInstance.mk "C" [("count", TycoValue.int 0)] ["count"])
    (List.mem_singleton.mpr rfl) rfl rfl rfl rfl
    (fun key hk => absurd hk (List.not_mem_nil key))
    (fun _ => rfl) rfl).1 rfl

/-- A reference value occurring in a value tree, through arrays and instance
fields (resolved payloads are not traversed, matching the pass). -/
inductive OccursRef (r : TycoReference) : TycoValue → Prop where
  | here : OccursRef r (.ref r)
  | inArray {items : List TycoValue} {v : TycoValue} :
      v ∈ items → OccursRef r v → OccursRef r (.array items)
  | inInst {sn : String} {fields : List (String × TycoValue)} {ord : List String}
      {k : String} {v : TycoValue} :
      (k, v) ∈ fields → OccursRef r v → OccursRef r (.inst (.mk sn fields ord))

/-- A reference correctly resolved against the snapshot: its target struct
exists, its key is in the primary index, and the resolved payload is that
indexed instance (the owned copy the Rust code attaches). -/
def refAttached (structs : List (String × TycoStruct)) (r : TycoReference) : Prop :=
  ∃ sd i, imGet structs r.structName = some sd ∧
    sd.findByPrimaryKey r.primaryKey = some i ∧ r.resolved = some i

section C1Lemmas

theorem exceptMapList_ok_mem {α : Type} {f : α → Except RErr α} :
    ∀ (l l' : List α), exceptMapList f l = .ok l' →
      ∀ y ∈ l', ∃ x ∈ l, f x = .ok y := by
  intro l
  induction l with
  | nil =>
    intro l' hok y hy
    simp only [exceptMapList] at hok
    cases hok
    exact absurd hy (List.not_mem_nil y)
  | cons x xs ih =>
    intro l' hok y hy
    simp only [exceptMapList] at hok
    cases hfx : f x with
    | error e => rw [hfx] at hok; exact Except.noConfusion hok
    | ok y0 =>
      rw [hfx] at hok
      cases hrest : exceptMapList f xs with
      | error e => rw [hrest] at hok; exact Except.noConfusion hok
      | ok ys =>
        rw [hrest] at hok
        have hl' : l' = y0 :: ys := (Except.ok.inj hok).symm
        subst hl'
        rcases List.mem_cons.mp hy with h | h
        · exact ⟨x, List.mem_cons_self x xs, h ▸ hfx⟩
        · obtain ⟨x2, hx2, hfx2⟩ := ih ys hrest y h
          exact ⟨x2, List.mem_cons_of_mem x hx2, hfx2⟩

theorem exceptMapList_error_mem {α : Type} {f : α → Except RErr α} :
    ∀ (l : List α) (e : RErr), exceptMapList f l = .error e →
      ∃ x ∈ l, f x = .error e := by
  intro l
  induction l with
  | nil => intro e h; simp only [exceptMapList] at h; exact Except.noConfusion h
  | cons x xs ih =>
    intro e h
    simp only [exceptMapList] at h
    cases hfx : f x with
    | error e0 =>
      rw [hfx] at h
      have : e0 = e := Except.error.inj h
      exact ⟨x, List.mem_cons_self x xs, this ▸ hfx⟩
    | ok y0 =>
      rw [hfx] at h
      cases hrest : exceptMapList f xs with
      | error e1 =>
        rw [hrest] at h
        have : e1 = e := Except.error.inj h
        obtain ⟨x2, hx2, hfx2⟩ := ih e1 hrest
        exact ⟨x2, List.mem_cons_of_mem x hx2, this ▸ hfx2⟩
      | ok ys => rw [hrest] at h; exact Except.noConfusion h

theorem exceptMapSnd_ok_mem {α : Type} {f : α → Except RErr α} :
    ∀ (m m' : List (String × α)), exceptMapSnd f m = .ok m' →
      ∀ (k : String) (w : α), (k, w) ∈ m' → ∃ v, (k, v) ∈ m ∧ f v = .ok w := by
  intro m
  induction m with
  | nil =>
    intro m' hok k w hw
    simp only [exceptMapSnd] at hok
    cases hok
    exact absurd hw (List.not_mem_nil (k, w))
  | cons p rest ih =>
    obtain ⟨k0, v0⟩ := p
    intro m' hok k w hw
    simp only [exceptMapSnd] at hok
    cases hf0 : f v0 with
    | error e => rw [hf0] at hok; exact Except.noConfusion hok
    | ok w0 =>
      rw [hf0] at hok
      cases hrest : exceptMapSnd f rest with
      | error e => rw [hrest] at hok; exact Except.noConfusion hok
      | ok rest' =>
        rw [hrest] at hok
        have hm' : m' = (k0, w0) :: rest' := (Except.ok.inj hok).symm
        subst hm'
        rcases List.mem_cons.mp hw with h | h
        · have hk : k = k0 := congrArg Prod.fst h
          have hw0 : w = w0 := congrArg Prod.snd h
          exact ⟨v0, by rw [hk]; exact List.mem_cons_self _ _, by rw [hw0]; exact hf0⟩
        · obtain ⟨v2, hv2, hfv2⟩ := ih rest' hrest k w h
          exact ⟨v2, List.mem_cons_of_mem _ hv2, hfv2⟩

theorem exceptMapSnd_error_mem {α : Type} {f : α → Except RErr α} :
    ∀ (m : List (String × α)) (e : RErr), exceptMapSnd f m = .error e →
      ∃ k v, (k, v) ∈ m ∧ f v = .error e := by
  intro m
  induction m with
  | nil => intro e h; simp only [exceptMapSnd] at h; exact Except.noConfusion h
  | cons p rest ih =>
    obtain ⟨k0, v0⟩ := p
    intro e h
    simp only [exceptMapSnd] at h
    cases hf0 : f v0 with
    | error e0 =>
      rw [hf0] at h
      have : e0 = e := Except.error.inj h
      exact ⟨k0, v0, List.mem_cons_self _ _, this ▸ hf0⟩
    | ok w0 =>
      rw [hf0] at h
      cases hrest : exceptMapSnd f rest with
      | error e1 =>
        rw [hrest] at h
        have : e1 = e := Except.error.inj h
        obtain ⟨k2, v2, hv2, hfv2⟩ := ih e1 hrest
        exact ⟨k2, v2, List.mem_cons_of_mem _ hv2, this ▸ hfv2⟩
      | ok ys => rw [hrest] at h; exact Except.noConfusion h

theorem visitValue_spec (structs : List (String × TycoStruct)) :
    ∀ (n : Nat) (v : TycoValue),
      (∀ v', visitValue structs n v = .ok v' →
        ∀ r, OccursRef r v' → refAttached structs r)
      ∧ (∀ e, visitValue structs n v = .error e →
          e = .fuelOut
          ∨ (∃ r, OccursRef r v ∧ imGet structs r.structName = none ∧
              e = .unknownStruct r.structName)
          ∨ (∃ r sd, OccursRef r v ∧ imGet structs r.structName = some sd ∧
              sd.findByPrimaryKey r.primaryKey = none ∧
              e = .reference ("Unknown " ++ r.structName ++ "(" ++ r.primaryKey ++ ")"))) := by
  intro n
  induction n with
  | zero =>
    intro v
    constructor
    · intro v' h; exact absurd h (by simp [visitValue])
    · intro e h
      simp only [visitValue] at h
      exact Or.inl (Except.error.inj h).symm
  | succ n ih =>
    intro v
    match v with
    | .ref r =>
      cases hs : imGet structs r.structName with
      | none =>
        constructor
        · intro v' h
          simp only [visitValue, hs] at h
          exact Except.noConfusion h
        · intro e h
          simp only [visitValue, hs] at h
          exact Or.inr (Or.inl ⟨r, OccursRef.here, hs, (Except.error.inj h).symm⟩)
      | some sd =>
        cases hpk : sd.findByPrimaryKey r.primaryKey with
        | none =>
          constructor
          · intro v' h
            simp only [visitValue, hs, hpk] at h
            exact Except.noConfusion h
          · intro e h
            simp only [visitValue, hs, hpk] at h
            exact Or.inr (Or.inr ⟨r, sd, OccursRef.here, hs, hpk, (Except.error.inj h).symm⟩)
        | some found =>
          constructor
          · intro v' h r2 hocc
            simp only [visitValue, hs, hpk] at h
            have hv : TycoValue.ref (TycoReference.mk r.structName r.primaryKey (some found))
                = v' := Except.ok.inj h
            subst hv
            cases hocc with
            | here => exact ⟨sd, found, hs, hpk, rfl⟩
          · intro e h
            simp only [visitValue, hs, hpk] at h
            exact Except.noConfusion h
    | .array items =>
      constructor
      · intro v' h r hocc
        simp only [visitValue] at h
        cases hml : exceptMapList (visitValue structs n) items with
        | error e => rw [hml] at h; exact Except.noConfusion h
        | ok items' =>
          rw [hml] at h
          have hv' : v' = .array items' := (Except.ok.inj h).symm
          subst hv'
          cases hocc with
          | inArray hmem hocc2 =>
            obtain ⟨x, hx, hfx⟩ := exceptMapList_ok_mem items items' hml _ hmem
            exact (ih x).1 _ hfx r hocc2
      · intro e h
        simp only [visitValue] at h
        cases hml : exceptMapList (visitValue structs n) items with
        | ok items' => rw [hml] at h; exact Except.noConfusion h
        | error e0 =>
          rw [hml] at h
          have he : e0 = e := Except.error.inj h
          subst he
          obtain ⟨x, hx, hfx⟩ := exceptMapList_error_mem items e0 hml
          rcases (ih x).2 e0 hfx with h1 | h1 | h1
          · exact Or.inl h1
          · obtain ⟨r, hr1, hr2, hr3⟩ := h1
            exact Or.inr (Or.inl ⟨r, OccursRef.inArray hx hr1, hr2, hr3⟩)
          · obtain ⟨r, sd, hr1, hr2, hr3, hr4⟩ := h1
            exact Or.inr (Or.inr ⟨r, sd, OccursRef.inArray hx hr1, hr2, hr3, hr4⟩)
    | .inst (.mk sn fields ord) =>
      constructor
      · intro v' h r hocc
        simp only [visitValue] at h
        cases hml : exceptMapSnd (visitValue structs n) fields with
        | error e => rw [hml] at h; exact Except.noConfusion h
        | ok fields' =>
          rw [hml] at h
          have hv' : v' = .inst (.mk sn fields' ord) := (Except.ok.inj h).symm
          subst hv'
          cases hocc with
          | inInst hmem hocc2 =>
            obtain ⟨v0, hv0, hfv0⟩ := exceptMapSnd_ok_mem fields fields' hml _ _ hmem
            exact (ih v0).1 _ hfv0 r hocc2
      · intro e h
        simp only [visitValue] at h
        cases hml : exceptMapSnd (visitValue structs n) fields with
        | ok fields' => rw [hml] at h; exact Except.noConfusion h
        | error e0 =>
          rw [hml] at h
          have he : e0 = e := Except.error.inj h
          subst he
          obtain ⟨k, v0, hv0, hfv0⟩ := exceptMapSnd_error_mem fields e0 hml
          rcases (ih v0).2 e0 hfv0 with h1 | h1 | h1
          · exact Or.inl h1
          · obtain ⟨r, hr1, hr2, hr3⟩ := h1
            exact Or.inr (Or.inl ⟨r, OccursRef.inInst hv0 hr1, hr2, hr3⟩)
          · obtain ⟨r, sd, hr1, hr2, hr3, hr4⟩ := h1
            exact Or.inr (Or.inr ⟨r, sd, OccursRef.inInst hv0 hr1, hr2, hr3, hr4⟩)
    | .null =>
      constructor
      · intro v' h r hocc
        have h2 : (Except.ok (TycoValue.null) : Except RErr TycoValue) = .ok v' := h
        have hv : (TycoValue.null) = v' := Except.ok.inj h2
        subst hv
        cases hocc
      · intro e h
        have h2 : (Except.ok (TycoValue.null) : Except RErr TycoValue) = .error e := h
        exact Except.noConfusion h2
    | .bool b =>
      constructor
      · intro v' h r hocc
        have h2 : (Except.ok (TycoValue.bool b) : Except RErr TycoValue) = .ok v' := h
        have hv : (TycoValue.bool b) = v' := Except.ok.inj h2
        subst hv
        cases hocc
      · intro e h
        have h2 : (Except.ok (TycoValue.bool b) : Except RErr TycoValue) = .error e := h
        exact Except.noConfusion h2
    | .int i =>
      constructor
      · intro v' h r hocc
        have h2 : (Except.ok (TycoValue.int i) : Except RErr TycoValue) = .ok v' := h
        have hv : (TycoValue.int i) = v' := Except.ok.inj h2
        subst hv
        cases hocc
      · intro e h
        have h2 : (Except.ok (TycoValue.int i) : Except RErr TycoValue) = .error e := h
        exact Except.noConfusion h2
    | .float f =>
      constructor
      · intro v' h r hocc
        have h2 : (Except.ok (TycoValue.float f) : Except RErr TycoValue) = .ok v' := h
        have hv : (TycoValue.float f) = v' := Except.ok.inj h2
        subst hv
        cases hocc
      · intro e h
        have h2 : (Except.ok (TycoValue.float f) : Except RErr TycoValue) = .error e := h
        exact Except.noConfusion h2
    | .str s =>
      constructor
      · intro v' h r hocc
        have h2 : (Except.ok (TycoValue.str s) : Except RErr TycoValue) = .ok v' := h
        have hv : (TycoValue.str s) = v' := Except.ok.inj h2
        subst hv
        cases hocc
      · intro e h
        have h2 : (Except.ok (TycoValue.str s) : Except RErr TycoValue) = .error e := h
        exact Except.noConfusion h2
    | .date s =>
      constructor
      · intro v' h r hocc
        have h2 : (Except.ok (TycoValue.date s) : Except RErr TycoValue) = .ok v' := h
        have hv : (TycoValue.date s) = v' := Except.ok.inj h2
        subst hv
        cases hocc
      · intro e h
        have h2 : (Except.ok (TycoValue.date s) : Except RErr TycoValue) = .error e := h
        exact Except.noConfusion h2
    | .time s =>
      constructor
      · intro v' h r hocc
        have h2 : (Except.ok (TycoValue.time s) : Except RErr TycoValue) = .ok v' := h
        have hv : (TycoValue.time s) = v' := Except.ok.inj h2
        subst hv
        cases hocc
      · intro e h
        have h2 : (Except.ok (TycoValue.time s) : Except RErr TycoValue) = .error e := h
        exact Except.noConfusion h2
    | .datetime s =>
      constructor
      · intro v' h r hocc
        have h2 : (Except.ok (TycoValue.datetime s) : Except RErr TycoValue) = .ok v' := h
        have hv : (TycoValue.datetime s) = v' := Except.ok.inj h2
        subst hv
        cases hocc
      · intro e h
        have h2 : (Except.ok (TycoValue.datetime s) : Except RErr TycoValue) = .error e := h
        exact Except.noConfusion h2

theorem rrStructs_ok_mem (snapshot : List (String × TycoStruct)) (fuel : Nat) :
    ∀ (ss ss' : List (String × TycoStruct)), rrStructs snapshot fuel ss = .ok ss' →
      ∀ sn sd', (sn, sd') ∈ ss' → ∀ i' ∈ sd'.instances, ∀ k fv, (k, fv) ∈ i'.fields →
        ∃ v0, visitValue snapshot fuel v0 = .ok fv := by
  intro ss
  induction ss with
  | nil =>
    intro ss' hok sn sd' hmem
    simp only [rrStructs] at hok
    cases hok
    exact absurd hmem (List.not_mem_nil (sn, sd'))
  | cons p rest ih =>
    obtain ⟨name, sd⟩ := p
    intro ss' hok sn sd' hmem i' hi' k fv hfv
    simp only [rrStructs] at hok
    cases hil : exceptMapList
        (fun i => match i with
          | .mk s2 fields order =>
            (exceptMapSnd (visitValue snapshot fuel) fields).map
              (fun fs => TycoInstance.mk s2 fs order))
        sd.instances with
    | error e => rw [hil] at hok; exact Except.noConfusion hok
    | ok insts =>
      rw [hil] at hok
      cases hrest : rrStructs snapshot fuel rest with
      | error e => rw [hrest] at hok; exact Except.noConfusion hok
      | ok rest' =>
        rw [hrest] at hok
        have hss' : ss' = (name, { sd with instances := insts }) :: rest' :=
          (Except.ok.inj hok).symm
        subst hss'
        rcases List.mem_cons.mp hmem with h | h
        · have hsd' : sd' = { sd with instances := insts } := congrArg Prod.snd h
          rw [hsd'] at hi'
          obtain ⟨i0, hi0, hfi0⟩ := exceptMapList_ok_mem sd.instances insts hil i' hi'
          cases i0 with
          | mk s0 f0 o0 =>
            simp only [] at hfi0
            cases hms : exceptMapSnd (visitValue snapshot fuel) f0 with
            | error e => rw [hms] at hfi0; exact Except.noConfusion hfi0
            | ok f0' =>
              rw [hms] at hfi0
              have hieq : TycoInstance.mk s0 f0' o0 = i' := Except.ok.inj hfi0
              have hfv2 : (k, fv) ∈ f0' := by
                rw [← hieq] at hfv
                exact hfv
              obtain ⟨v0, _, hv0⟩ := exceptMapSnd_ok_mem f0 f0' hms k fv hfv2
              exact ⟨v0, hv0⟩
        · exact ih rest' hrest sn sd' h i' hi' k fv hfv

end C1Lemmas

/-- C1: the reference-resolution pass.  For the visit worker: on success,
every reference in the output carries a resolved payload equal to the
snapshot index's matched instance for its (struct, key) pair (the owned
deep copy); an error is (apart from the model's fuel artefact) either an
UnknownStruct error for a reachable reference whose target struct is not
declared, or a Reference error for a reachable reference whose key text is
absent from the target's primary index.  For the whole pass
(`resolve_references`): on success, every reference reachable from a global
or a stored instance is attached against the pre-pass struct snapshot. -/
theorem c1_reference_resolution (structs : List (String × TycoStruct)) (n : Nat)
    (v : TycoValue) :
    (∀ v', visitValue structs n v = .ok v' → ∀ r, OccursRef r v' → refAttached structs r)
    ∧ (∀ e, visitValue structs n v = .error e →
        e = .fuelOut
        ∨ (∃ r, OccursRef r v ∧ imGet structs r.structName = none ∧
            e = .unknownStruct r.structName)
        ∨ (∃ r sd, OccursRef r v ∧ imGet structs r.structName = some sd ∧
            sd.findByPrimaryKey r.primaryKey = none ∧
            e = .reference ("Unknown " ++ r.structName ++ "(" ++ r.primaryKey ++ ")")))
    ∧ (∀ ctx ctx', resolveReferencesCtx n ctx = .ok ctx' →
        (∀ k gv, (k, gv) ∈ ctx'.globals → ∀ r, OccursRef r gv → refAttached ctx.structs r)
        ∧ (∀ sn sd', (sn, sd') ∈ ctx'.structs → ∀ i' ∈ sd'.instances,
            ∀ k fv, (k, fv) ∈ i'.fields → ∀ r, OccursRef r fv →
              refAttached ctx.structs r)) := by
  refine ⟨(visitValue_spec structs n v).1, (visitValue_spec structs n v).2, ?_⟩
  intro ctx ctx' hok
  simp only [resolveReferencesCtx] at hok
  cases hg : exceptMapSnd (visitValue ctx.structs n) ctx.globals with
  | error e => rw [hg] at hok; exact Except.noConfusion hok
  | ok globals' =>
    rw [hg] at hok
    cases hs : rrStructs ctx.structs n ctx.structs with
    | error e => rw [hs] at hok; exact Except.noConfusion hok
    | ok structs' =>
      rw [hs] at hok
      have hctx : ctx' = ⟨globals', structs'⟩ := (Except.ok.inj hok).symm
      subst hctx
      constructor
      · intro k gv hmem r hocc
        obtain ⟨v0, _, hv0⟩ := exceptMapSnd_ok_mem _ _ hg k gv hmem
        exact (visitValue_spec ctx.structs n v0).1 gv hv0 r hocc
      · intro sn sd' hmem i' hi' k fv hfv r hocc
        obtain ⟨v0, hv0⟩ := rrStructs_ok_mem ctx.structs n ctx.structs structs' hs
          sn sd' hmem i' hi' k fv hfv
        exact (visitValue_spec ctx.structs n v0).1 fv hv0 r hocc

/-- Indexed `Person` instance for the C1 witness. -/
def c1PersonInst : TycoInstance := .mk "Person" [("id", .str (.mk "p1" false false))] ["id"]

/-- Struct table for the C1 witness: `Person` with primary key `id` and the
index entry `p1`. -/
def c1Structs : List (String × TycoStruct) :=
  [("Person", ⟨"Person", [], some "id", [c1PersonInst], [("p1", c1PersonInst)]⟩)]

/-- Witness for C1: visiting the unresolved `Person("p1")` reference
attaches the indexed instance as the payload. -/
theorem c1_reference_resolution_witness :
    refAttached c1Structs (TycoReference.mk "Person" "p1" (some c1PersonInst)) :=
  (c1_reference_resolution c1Structs 1 (.ref (.mk "Person" "p1" none))).1
    (.ref (.mk "Person" "p1" (some c1PersonInst))) rfl
    (.mk "Person" "p1" (some c1PersonInst)) OccursRef.here

end Tyco
